import Mathlib

/-!
# YuvSource.cpp: frame geometry, frame buffer and frame reading

A shallow embedding of `YuvSourceFilter` (src/YuvSource.cpp) and the properties of
its frame-geometry inference, derived-state recalculation, buffer lifecycle and
frame reading.

Conventions of the embedding

* A `std::string` is a `List Char`; `std::string::npos` is `none`.
* An `int` is an `Int` in the range `INT_MIN .. INT_MAX`; the product
  `m_iWidth*m_iHeight` is taken in `int` and wraps modulo 2^32 (`wrapInt`).
* The `double` member `m_dBytesPerPixel` only ever receives the literals `1.5`
  and `4.0`; both are exact binary fractions and their products with an `int`
  are exact in `double`, so the arithmetic is carried out in `Int` on halves.
* Operations whose C++ behaviour is undefined or that end in an uncaught
  exception (integer division by zero, a floating value that does not fit the
  `int` it is cast to, `new[]` of a negative size, a read outside the string)
  return `Except.error` with the `Fault` that occurred.
-/

namespace YuvSource

deriving instance DecidableEq for Except

/-! ## Machine integers and faults -/

/-- Largest value of the C++ type int. -/
def INT_MAX : Int := 2147483647

/-- Smallest value of the C++ type int. -/
def INT_MIN : Int := -2147483648

/-- Result of an int computation whose exact value is `z`: two's-complement
wrap-around into `INT_MIN .. INT_MAX`. -/
def wrapInt (z : Int) : Int := (z + 2147483648) % 4294967296 - 2147483648

/-- Ways in which an operation of the filter leaves defined behaviour. -/
inductive Fault
  | divisionByZero
  | castOutOfRange
  | intOverflow
  | badAlloc
  | outOfBounds
  deriving DecidableEq, Repr

/-- COM result codes used by the filter. -/
inductive HRESULT
  | S_OK
  | E_FAIL
  deriving DecidableEq, Repr

/-- Values of `m_nYuvFormat` assigned in createYuvFrameBuffer. -/
inductive YuvFormat
  | YUV420P
  | YUV444I
  deriving DecidableEq, Repr

/-- Values of the double `m_dBytesPerPixel`: the literals 1.5 and 4.0. -/
inductive BytesPerPixel
  | d1_5
  | d4_0
  deriving DecidableEq, Repr

/-- Twice the bytes-per-pixel multiplier (the numerator over the denominator 2). -/
def BytesPerPixel.twice : BytesPerPixel → Int
  | .d1_5 => 3
  | .d4_0 => 8

/-- The bytes-per-pixel multiplier as a rational number. -/
def BytesPerPixel.value : BytesPerPixel → ℚ
  | .d1_5 => 3 / 2
  | .d4_0 => 4

/-- The expression `static_cast<int>(p * d)` for an int `p` and the double `d`: the exact
product truncated toward zero; undefined when the truncated value is not an int. -/
def castToInt (p : Int) (d : BytesPerPixel) : Except Fault Int :=
  let t := Int.tdiv (p * d.twice) 2
  if INT_MIN ≤ t ∧ t ≤ INT_MAX then .ok t else .error .castOutOfRange

/-! ## Strings -/

/-- A std::string. -/
abbrev StdString := List Char

/-- Search of `std::string::find`: the first index at or after `i` (the index of the
head of the remaining text) where `needle` occurs. -/
def findAux (needle : StdString) : StdString → Nat → Option Nat
  | [], i => if needle.isEmpty then some i else none
  | c :: cs, i => if needle.isPrefixOf (c :: cs) then some i else findAux needle cs (i + 1)

/-- The call `s.find(needle)`; `none` is `std::string::npos`. -/
def find (s needle : StdString) : Option Nat := findAux needle s 0

/-- The call `s.substr(pos, n)` for `pos ≤ s.length`. -/
def substr (s : StdString) (pos n : Nat) : StdString := (s.drop pos).take n

/-- The C function isdigit on the characters '0' .. '9'. -/
def isdigit (c : Char) : Bool := c.isDigit

/-- The C function tolower in the "C" locale. -/
def tolower (c : Char) : Char := c.toLower

/-- The C function isspace in the "C" locale: space, \t, \n, \v, \f, \r. -/
def isspace (c : Char) : Bool := c = ' ' || (9 ≤ c.toNat && c.toNat ≤ 13)

/-- Value of a decimal digit character. -/
def digitValue (c : Char) : Nat := c.toNat - 48

/-- Decimal value of a run of digits. -/
def decimalValue (ds : StdString) : Nat := ds.foldl (fun acc c => 10 * acc + digitValue c) 0

/-- Clamping of an extracted value to the range of int (the value stored by
`operator>>` when the numeral does not fit). -/
def clampInt (v : Int) : Int :=
  if INT_MAX < v then INT_MAX else if v < INT_MIN then INT_MIN else v

/-- The extraction `istr >> i` of lines 331-334 from a fresh `std::istringstream` over
`s` into an int that was initialised with 0: leading white space is skipped, an
optional sign and the following decimal digits are read; without any digit the
result is 0, and a numeral outside the range of int gives the nearest bound. -/
def extractInt (s : StdString) : Int :=
  let t := s.dropWhile isspace
  let negative := t.head? = some '-'
  let body := if t.head? = some '-' ∨ t.head? = some '+' then t.tail else t
  let ds := body.takeWhile isdigit
  if ds.isEmpty then 0
  else if negative then clampInt (-(decimalValue ds : Int))
  else clampInt (decimalValue ds : Int)

/-- Modelled from the spec: `convert<int>` of Conversion.h, which is not among the
sources. It yields the decimal value of a numeral that fits an int, and "a width or
height string that fails integer parsing is treated as 0 by the conversion step". -/
def convert (s : StdString) : Int :=
  if !s.isEmpty && s.all isdigit && decide ((decimalValue s : Int) ≤ INT_MAX)
  then (decimalValue s : Int) else 0

/-! ## The input file stream `m_in1` -/

/-- A std::ifstream: whether a file is attached, the error flags, the bytes of the
attached file and the read position. -/
structure IfStream where
  is_open : Bool
  failbit : Bool
  eofbit : Bool
  file : List Nat
  pos : Nat
  deriving DecidableEq, Repr

namespace IfStream

/-- The call `open(path, in | binary)`; `file` holds the bytes of the file at the path
when it can be opened. Opening a stream that is already open fails. -/
def open_ (s : IfStream) (file : Option (List Nat)) : IfStream :=
  if s.is_open then { s with failbit := true }
  else
    match file with
    | some bytes => { is_open := true, failbit := false, eofbit := false, file := bytes, pos := 0 }
    | none => { s with failbit := true }

/-- The calls `seekg(0, std::ios::end)` and `seekg(0, std::ios::beg)`, with `target` the
absolute position asked for: eofbit is cleared, and nothing else happens when the stream
has failed. -/
def seekg (s : IfStream) (target : Nat) : IfStream :=
  let s1 := { s with eofbit := false }
  if s1.failbit then s1
  else if s1.is_open then { s1 with pos := target }
  else { s1 with failbit := true }

/-- The call `tellg()`: the position, or -1 when the stream has failed. -/
def tellg (s : IfStream) : Int :=
  if s.failbit ∨ ¬ s.is_open then -1 else (s.pos : Int)

/-- The call `read(buf, n)`: up to `n` bytes are copied from the position on, and a short
count sets eofbit and failbit. Nothing is read from a stream that is not good. The
result is the stream and the bytes extracted. -/
def read (s : IfStream) (n : Int) : IfStream × List Nat :=
  if s.failbit ∨ s.eofbit then ({ s with failbit := true }, [])
  else
    let chunk := (s.file.drop s.pos).take n.toNat
    let s1 := { s with pos := s.pos + chunk.length }
    if (chunk.length : Int) ≠ n then ({ s1 with eofbit := true, failbit := true }, chunk)
    else (s1, chunk)

end IfStream

/-! ## The filter state -/

/-- The member of YuvOutputPin that the filter writes. -/
structure YuvOutputPin where
  m_iCurrentFrame : Int
  deriving DecidableEq, Repr

/-- A byte array obtained from `new unsigned char[n]`; a byte that has not been written
yet is `none`. -/
abbrev ByteArray_ := List (Option Nat)

/-- The data members of YuvSourceFilter that YuvSource.cpp reads or writes. -/
structure YuvSourceFilter where
  m_iWidth : Int
  m_iHeight : Int
  m_sDimensions : StdString
  m_iFramesPerSecond : Int
  m_rtFrameLength : Int
  m_iNoFrames : Int
  m_dBytesPerPixel : BytesPerPixel
  m_nYuvFormat : YuvFormat
  m_pYuvBuffer : Option ByteArray_
  m_iFileSize : Int
  m_iRead : Int
  m_iFrameSize : Int
  m_sFile : StdString
  m_in1 : IfStream
  m_pPin : YuvOutputPin
  deriving DecidableEq, Repr

/-- The constant UNITS of the DirectShow base classes ("UNITS = 10 ^ 7", line 59). -/
def UNITS : Int := 10000000

/-- The constant FPS_30 of line 63. -/
def FPS_30 : Int := Int.tdiv UNITS 30

/-- The constructor (lines 87-99). The members it leaves uninitialised, `m_iFrameSize`,
`m_nYuvFormat` and the pin's frame counter, are arguments. -/
def YuvSourceFilter.new (m_iFrameSize : Int) (m_nYuvFormat : YuvFormat)
    (m_iCurrentFrame : Int) : YuvSourceFilter :=
  { m_iWidth := 352
    m_iHeight := 288
    m_sDimensions := "352x288".toList
    m_iFramesPerSecond := 30
    m_rtFrameLength := FPS_30
    m_iNoFrames := 150
    m_dBytesPerPixel := .d1_5
    m_nYuvFormat := m_nYuvFormat
    m_pYuvBuffer := none
    m_iFileSize := 0
    m_iRead := 0
    m_iFrameSize := m_iFrameSize
    m_sFile := []
    m_in1 := { is_open := false, failbit := false, eofbit := false, file := [], pos := 0 }
    m_pPin := { m_iCurrentFrame := m_iCurrentFrame } }

/-! ## recalculate, updatePictureBuffer, setDimensions -/

/-- The division `a / b` of two ints: truncation toward zero, undefined for `b = 0` and
for `INT_MIN / -1`. -/
def intDiv (a b : Int) : Except Fault Int :=
  if b = 0 then .error .divisionByZero
  else if a = INT_MIN ∧ b = -1 then .error .intOverflow
  else .ok (Int.tdiv a b)

/-- Lines 308-313, `YuvSourceFilter::recalculate`. -/
def recalculate (st : YuvSourceFilter) : Except Fault YuvSourceFilter :=
  match castToInt (wrapInt (st.m_iWidth * st.m_iHeight)) st.m_dBytesPerPixel with
  | .error f => .error f
  | .ok frameSize =>
    match intDiv st.m_iFileSize frameSize with
    | .error f => .error f
    | .ok noFrames => .ok { st with m_iFrameSize := frameSize, m_iNoFrames := noFrames }

/-- The expression `new unsigned char[n]` for an int `n`: a negative `n` converts to a
size no allocation can serve. -/
def newArray (n : Int) : Except Fault ByteArray_ :=
  if n < 0 then .error .badAlloc else .ok (List.replicate n.toNat none)

/-- Lines 340-359, `YuvSourceFilter::updatePictureBuffer`. The parameter dBytesPerPixel
is not used by the body. -/
def updatePictureBuffer (iWidth iHeight : Int) (_dBytesPerPixel : BytesPerPixel)
    (st : YuvSourceFilter) : Except Fault (Bool × YuvSourceFilter) :=
  if 0 < iWidth ∧ 0 < iHeight then
    match recalculate { st with m_iWidth := iWidth, m_iHeight := iHeight } with
    | .error f => .error f
    | .ok st1 =>
      match newArray st1.m_iFrameSize with
      | .error f => .error f
      | .ok buf => .ok (true, { st1 with m_pYuvBuffer := some buf })
  else .ok (false, st)

/-- Lines 325-338, `YuvSourceFilter::setDimensions`. -/
def setDimensions (sDimensions : StdString) (st : YuvSourceFilter) :
    Except Fault (Bool × YuvSourceFilter) :=
  match find sDimensions ['x'] with
  | some pos =>
    let iWidth := extractInt (substr sDimensions 0 pos)
    let iHeight := extractInt (sDimensions.drop (pos + 1))
    updatePictureBuffer iWidth iHeight st.m_dBytesPerPixel st
  | none => .ok (false, st)

/-! ## createYuvFrameBuffer -/

/-- Lines 150-161: the pixel format is taken from the occurrence of "444" in the file
name as given. -/
def inferPixelFormat (st : YuvSourceFilter) : YuvSourceFilter :=
  if (find st.m_sFile "444".toList).isSome then
    { st with m_dBytesPerPixel := .d4_0, m_nYuvFormat := .YUV444I }
  else
    { st with m_dBytesPerPixel := .d1_5, m_nYuvFormat := .YUV420P }

/-- Lines 187-191, the walk to the left of the 'x'. The argument and the result are
`uiBeforePos + 1`, so that 0 stands for the value that `pos - 1` and `--uiBeforePos`
wrap to from 0 in size_t; the character at that index lies outside the string. -/
def leftWalk (s : StdString) : Nat → Except Fault Nat
  | 0 => .error .outOfBounds
  | u + 1 => if isdigit (s.getD u '\x00') then leftWalk s u else .ok (u + 1)

/-- Lines 203-207, the walk to the right of the 'x': `rest` is the text from index
`uiAfterPos` on, whose head is the character `sFormatString[uiAfterPos]`; at the end
of the string that character is the terminating zero. -/
def rightWalk : StdString → Nat → Nat
  | [], uiAfterPos => uiAfterPos
  | c :: rest, uiAfterPos => if isdigit c then rightWalk rest (uiAfterPos + 1) else uiAfterPos

/-- Lines 182-227, the loop over the occurrences of 'x' in `s`. `rest` is the text
from index `pos` on; looking through it character by character for the next 'x' is
the call `find("x", pos + 1)` of lines 199 and 215 (and `find("x")` of line 182 at the
start). The result is the pair (sWidth, sHeight) of the occurrence at which the loop
ends with `break`, or `none` when it ends with `pos == npos`. -/
def scanX (s : StdString) : StdString → Nat → Except Fault (Option (StdString × StdString))
  | [], _ => .ok none
  | c :: rest, pos =>
    if c = 'x' then
      match leftWalk s pos with
      | .error f => .error f
      | .ok before1 =>
        if before1 ≠ pos then
          let sWidth := substr s before1 (pos - before1)
          let uiAfterPos := rightWalk rest (pos + 1)
          if uiAfterPos ≠ pos + 1 then
            let sHeight := substr s (pos + 1) (uiAfterPos - pos - 1)
            .ok (some (sWidth, sHeight))
          else scanX s rest (pos + 1)
        else scanX s rest (pos + 1)
    else scanX s rest (pos + 1)

/-- Lines 229-231: recalculate and allocate the picture buffer. -/
def defaultBuffer (st : YuvSourceFilter) : Except Fault YuvSourceFilter :=
  match recalculate st with
  | .error f => .error f
  | .ok st1 =>
    match newArray st1.m_iFrameSize with
    | .error f => .error f
    | .ok buf => .ok { st1 with m_pYuvBuffer := some buf }

/-- Lines 163-233: the dimensions are guessed from the lower-cased file name. -/
def inferDimensions (st : YuvSourceFilter) : Except Fault YuvSourceFilter :=
  let sFormatString := st.m_sFile.map tolower
  if (find sFormatString "qcif".toList).isSome then
    match setDimensions "176x144".toList st with
    | .error f => .error f
    | .ok (_, st1) => .ok st1
  else if (find sFormatString "cif".toList).isSome then
    match setDimensions "352x288".toList st with
    | .error f => .error f
    | .ok (_, st1) => .ok st1
  else
    match scanX sFormatString sFormatString 0 with
    | .error f => .error f
    | .ok none => defaultBuffer st
    | .ok (some (sWidth, sHeight)) =>
      let iWidth := convert sWidth
      let iHeight := convert sHeight
      match updatePictureBuffer iWidth iHeight st.m_dBytesPerPixel st with
      | .error f => .error f
      | .ok (_, st1) => defaultBuffer { st1 with m_sDimensions := sWidth ++ 'x' :: sHeight }

/-- Lines 148-233, `YuvSourceFilter::createYuvFrameBuffer`. -/
def createYuvFrameBuffer (st : YuvSourceFilter) : Except Fault YuvSourceFilter :=
  inferDimensions (inferPixelFormat st)

/-! ## Load, Stop, readFrame, SetParameter -/

/-- Lines 126-146, `YuvSourceFilter::Load`. `file` holds the bytes of the file named
`lpwszFileName` when that file can be opened for reading. The member `m_iFileSize` is an
int, to which the position that `tellg` returns is converted. -/
def Load (lpwszFileName : StdString) (file : Option (List Nat)) (st : YuvSourceFilter) :
    Except Fault (HRESULT × YuvSourceFilter) :=
  let st1 := { st with m_sFile := lpwszFileName }
  let st2 := { st1 with m_in1 := st1.m_in1.open_ file }
  if st2.m_in1.is_open then
    let st3 := { st2 with m_in1 := st2.m_in1.seekg st2.m_in1.file.length }
    let st4 := { st3 with m_iFileSize := wrapInt st3.m_in1.tellg }
    match createYuvFrameBuffer st4 with
    | .error f => .error f
    | .ok st5 => .ok (.S_OK, { st5 with m_in1 := st5.m_in1.seekg 0 })
  else .ok (.E_FAIL, st2)

/-- Lines 275-280, `YuvSourceFilter::Stop`, up to the call of the base class. -/
def Stop (st : YuvSourceFilter) : YuvSourceFilter :=
  { st with m_pPin := { st.m_pPin with m_iCurrentFrame := 0 }, m_in1 := st.m_in1.seekg 0 }

/-- Lines 315-323, `YuvSourceFilter::readFrame`. The bytes extracted by `read` overwrite
the start of the buffer; writing more bytes than the buffer holds is a fault. -/
def readFrame (st : YuvSourceFilter) : Except Fault (Bool × YuvSourceFilter) :=
  if st.m_in1.is_open then
    let r := st.m_in1.read st.m_iFrameSize
    let capacity := match st.m_pYuvBuffer with
      | some buf => buf.length
      | none => 0
    if capacity < r.2.length then .error .outOfBounds
    else .ok (true, { st with
      m_in1 := r.1
      m_pYuvBuffer := st.m_pYuvBuffer.map (fun buf => r.2.map some ++ buf.drop r.2.length) })
  else .ok (false, st)

/-- The settings base class, which is not among the sources: the two parameter names
that `SetParameter` compares with, and `CSettingsInterface::SetParameter`, which stores
the value in the variable registered under the name. -/
structure CSettingsInterface where
  SOURCE_DIMENSIONS : StdString
  SOURCE_FPS : StdString
  SetParameter : StdString → StdString → YuvSourceFilter → HRESULT × YuvSourceFilter

/-- Lines 282-306, `YuvSourceFilter::SetParameter`. -/
def SetParameter (base : CSettingsInterface) (type value : StdString) (st : YuvSourceFilter) :
    Except Fault (HRESULT × YuvSourceFilter) :=
  if type = base.SOURCE_DIMENSIONS then
    match setDimensions value st with
    | .error f => .error f
    | .ok (true, st1) => .ok (base.SetParameter type value st1)
    | .ok (false, st1) => .ok (.E_FAIL, st1)
  else if type = base.SOURCE_FPS then
    let r := base.SetParameter type value st
    if r.1 = .S_OK then
      match intDiv UNITS r.2.m_iFramesPerSecond with
      | .error f => .error f
      | .ok rtFrameLength => .ok (r.1, { r.2 with m_rtFrameLength := rtFrameLength })
    else .ok r
  else
    let r := base.SetParameter type value st
    if r.1 = .S_OK then
      match recalculate r.2 with
      | .error f => .error f
      | .ok st1 => .ok (r.1, st1)
    else .ok r

/-- Modelled from the spec: `CSettingsInterface::SetParameter` and the parameter names,
which are not among the sources. The recognised parameters are the dimension string
and the frames per second; "unrecognized parameter ⇒ fails with an unsupported
parameter error; state unchanged". -/
def specSettings : CSettingsInterface :=
  { SOURCE_DIMENSIONS := "dimensions".toList
    SOURCE_FPS := "fps".toList
    SetParameter := fun type value st =>
      if type = "dimensions".toList then (.S_OK, { st with m_sDimensions := value })
      else if type = "fps".toList then (.S_OK, { st with m_iFramesPerSecond := extractInt value })
      else (.E_FAIL, st) }

/-- The operations through which the filter is driven. -/
inductive Op
  | Load (lpwszFileName : StdString) (file : Option (List Nat))
  | setDimensions (sDimensions : StdString)
  | SetParameter (type value : StdString)
  | readFrame
  | Stop

/-- The state after one operation. -/
def Op.run (base : CSettingsInterface) : Op → YuvSourceFilter → Except Fault YuvSourceFilter
  | .Load name file, st => (YuvSource.Load name file st).map Prod.snd
  | .setDimensions s, st => (YuvSource.setDimensions s st).map Prod.snd
  | .SetParameter type value, st => (YuvSource.SetParameter base type value st).map Prod.snd
  | .readFrame, st => (YuvSource.readFrame st).map Prod.snd
  | .Stop, st => .ok (YuvSource.Stop st)

/-- The state after a sequence of operations, each of which has to complete. -/
def runOps (base : CSettingsInterface) : List Op → YuvSourceFilter → Except Fault YuvSourceFilter
  | [], st => .ok st
  | op :: ops, st =>
    match op.run base st with
    | .error f => .error f
    | .ok st1 => runOps base ops st1


/-! ## Definitions used to state the properties -/

/-- The frame size of the specification, floor(w*h*bytesPerPixel), in exact rational
arithmetic. -/
def specFrameSize (w h : Int) (d : BytesPerPixel) : Int := ⌊((w * h : ℤ) : ℚ) * d.value⌋

/-- The text of a dimension string before its first 'x'. -/
def textBeforeX (s : StdString) : StdString := s.takeWhile (fun c => c != 'x')

/-- The text of a dimension string after its first 'x'. -/
def textAfterX (s : StdString) : StdString := (s.dropWhile (fun c => c != 'x')).tail

/-- A filter as the constructor leaves it (the uninitialised members hold 0 and YUV420P). -/
def constructed : YuvSourceFilter := YuvSourceFilter.new 0 .YUV420P 0

/-- The filter after Load of the seven-byte file "a_1x2.yuv" on the constructed filter. -/
def loadedExample : YuvSourceFilter :=
  { constructed with
    m_iWidth := 1
    m_iHeight := 2
    m_sDimensions := "1x2".toList
    m_iFrameSize := 3
    m_iNoFrames := 2
    m_pYuvBuffer := some [none, none, none]
    m_iFileSize := 7
    m_sFile := "a_1x2.yuv".toList
    m_in1 := { is_open := true, failbit := false, eofbit := false,
               file := [1, 2, 3, 4, 5, 6, 7], pos := 0 } }

/-- The members that the frame-count property is about. -/
def frameSummary (r : HRESULT × YuvSourceFilter) : HRESULT × Int × Int × Int × Int :=
  (r.1, r.2.m_iWidth, r.2.m_iHeight, r.2.m_iFrameSize, r.2.m_iNoFrames)

/-- The buffer-size invariant: a frame buffer is allocated and its length is the current
frame size. -/
def BufferMatchesFrameSize (st : YuvSourceFilter) : Prop :=
  ∃ buf, st.m_pYuvBuffer = some buf ∧ (buf.length : Int) = st.m_iFrameSize

/-- The frame size is the one recalculate computes from the current width, height and
bytes per pixel. -/
def FrameSizeCurrent (st : YuvSourceFilter) : Prop :=
  castToInt (wrapInt (st.m_iWidth * st.m_iHeight)) st.m_dBytesPerPixel = .ok st.m_iFrameSize

/-- Assumption on the settings base class, which is not among the sources: storing a
parameter value does not write the width, the height, the bytes per pixel, the frame size
or the frame buffer (the variables registered with it are other members). -/
def KeepsGeometry (base : CSettingsInterface) : Prop :=
  ∀ type value st,
    (base.SetParameter type value st).2.m_iWidth = st.m_iWidth ∧
    (base.SetParameter type value st).2.m_iHeight = st.m_iHeight ∧
    (base.SetParameter type value st).2.m_dBytesPerPixel = st.m_dBytesPerPixel ∧
    (base.SetParameter type value st).2.m_iFrameSize = st.m_iFrameSize ∧
    (base.SetParameter type value st).2.m_pYuvBuffer = st.m_pYuvBuffer

/-- The maximal run of digits that ends immediately left of index `p`. -/
def digitRunLeft (s : StdString) (p : Nat) : StdString :=
  ((s.take p).reverse.takeWhile isdigit).reverse

/-- The maximal run of digits that starts immediately right of index `p`. -/
def digitRunRight (s : StdString) (p : Nat) : StdString :=
  (s.drop (p + 1)).takeWhile isdigit

/-- Index `p` holds an 'x' with at least one digit on both sides. -/
def DigitsBothSides (s : StdString) (p : Nat) : Prop :=
  s[p]? = some 'x' ∧ digitRunLeft s p ≠ [] ∧ digitRunRight s p ≠ []

instance (s : StdString) (p : Nat) : Decidable (DigitsBothSides s p) := by
  unfold DigitsBothSides
  infer_instance

/-- The first character of the path that is not a digit is not an 'x': no 'x' is preceded
by digits only up to the start of the path (nor stands at index 0), so that the walk to
the left of an 'x' ends at a character of the path. -/
def ScanInBounds (s : StdString) : Prop := (s.dropWhile isdigit).head? ≠ some 'x'

instance (s : StdString) : Decidable (ScanInBounds s) := by
  unfold ScanInBounds
  infer_instance

/-- The members that the dimension inference is about. -/
def geometrySummary (st : YuvSourceFilter) : Int × Int × YuvFormat × BytesPerPixel :=
  (st.m_iWidth, st.m_iHeight, st.m_nYuvFormat, st.m_dBytesPerPixel)

/-- The filter `loadedExample` after two frames have been read: position 6 of the
seven-byte file, one byte left. -/
def nearEndExample : YuvSourceFilter :=
  { loadedExample with
    m_pYuvBuffer := some [some 4, some 5, some 6]
    m_in1 := { is_open := true, failbit := false, eofbit := false,
               file := [1, 2, 3, 4, 5, 6, 7], pos := 6 } }

/-- The filter `nearEndExample` after one more readFrame: the short read has set eofbit
and failbit, and only the first byte of the buffer has been written. -/
def pastEndExample : YuvSourceFilter :=
  { loadedExample with
    m_pYuvBuffer := some [some 7, some 5, some 6]
    m_in1 := { is_open := true, failbit := true, eofbit := true,
               file := [1, 2, 3, 4, 5, 6, 7], pos := 7 } }

/-- Assumption on the settings base class, which is not among the sources: storing a
parameter value does not touch the file stream or the recorded file size. -/
def KeepsStream (base : CSettingsInterface) : Prop :=
  ∀ type value st,
    (base.SetParameter type value st).2.m_in1 = st.m_in1 ∧
    (base.SetParameter type value st).2.m_iFileSize = st.m_iFileSize

/-- The stream of a filter on which the file `bytes` has been opened: the stream is open
on that file, eofbit is only set together with failbit, a failed stream has its position
at or after the recorded file size, and the recorded file size is at most the length of
the file. -/
def StreamConsistent (bytes : List Nat) (st : YuvSourceFilter) : Prop :=
  st.m_in1.is_open = true ∧ st.m_in1.file = bytes ∧
  (st.m_in1.eofbit = true → st.m_in1.failbit = true) ∧
  (st.m_in1.failbit = true → st.m_iFileSize ≤ (st.m_in1.pos : Int)) ∧
  st.m_iFileSize ≤ (bytes.length : Int)

/-- Largest value of size_t (64 bit), the value that `pos - 1` and `--uiBeforePos` wrap to
from 0. -/
def SIZE_MAX : Nat := 18446744073709551615

/-- The indices at which the left walk of lines 187-191 reads `sFormatString`, in the order
of the reads, as size_t values. The argument is `uiBeforePos + 1` as in `leftWalk`. -/
def leftWalkReads (s : StdString) : Nat → List Nat
  | 0 => [SIZE_MAX]
  | u + 1 => u :: (if isdigit (s.getD u '\x00') then leftWalkReads s u else [])

/-- The members that the stored dimension string is compared with. -/
def dimensionSummary (st : YuvSourceFilter) : String × Int × Int :=
  (String.mk st.m_sDimensions, st.m_iWidth, st.m_iHeight)

/-- The stream position, the failbit and the pin's frame counter. -/
def streamSummary (st : YuvSourceFilter) : Nat × Bool × Int :=
  (st.m_in1.pos, st.m_in1.failbit, st.m_pPin.m_iCurrentFrame)

/-- Whether an operation is a SetParameter call. -/
def Op.isSetParameter : Op → Bool
  | .SetParameter _ _ => true
  | _ => false

/-- The result of setDimensions: the flag, the width and the height. -/
def resultSummary (r : Bool × YuvSourceFilter) : Bool × Int × Int :=
  (r.1, r.2.m_iWidth, r.2.m_iHeight)

/-- The filter after setDimensions("1x2") and Load of the empty file "clip_0x100.yuv" on
the constructed filter: the zero width of the path is rejected and 1x2 is kept. -/
def clipExample : YuvSourceFilter :=
  { constructed with
    m_iWidth := 1
    m_iHeight := 2
    m_sDimensions := "0x100".toList
    m_iFrameSize := 3
    m_iNoFrames := 0
    m_pYuvBuffer := some [none, none, none]
    m_iFileSize := 0
    m_sFile := "clip_0x100.yuv".toList
    m_in1 := { is_open := true, failbit := false, eofbit := false, file := [], pos := 0 } }


/-! ## Frame-size arithmetic -/

theorem specFrameSize_eq (w h : Int) (d : BytesPerPixel) :
    specFrameSize w h d = w * h * d.twice / 2 := by
  unfold specFrameSize
  cases d
  · show ⌊((w * h : ℤ) : ℚ) * (3 / 2)⌋ = w * h * 3 / 2
    rw [show ((w * h : ℤ) : ℚ) * (3 / 2) = ((w * h * 3 : ℤ) : ℚ) / ((2 : ℕ) : ℚ) by
      push_cast; ring, Rat.floor_intCast_div_natCast]
    rfl
  · show ⌊((w * h : ℤ) : ℚ) * 4⌋ = w * h * 8 / 2
    rw [show ((w * h : ℤ) : ℚ) * 4 = ((w * h * 8 : ℤ) : ℚ) / ((2 : ℕ) : ℚ) by
      push_cast; ring, Rat.floor_intCast_div_natCast]
    rfl

theorem wrapInt_eq_self (z : Int) (h1 : INT_MIN ≤ z) (h2 : z ≤ INT_MAX) : wrapInt z = z := by
  unfold wrapInt
  unfold INT_MIN at h1
  unfold INT_MAX at h2
  omega

theorem twice_cases (d : BytesPerPixel) : d.twice = 3 ∨ d.twice = 8 := by
  cases d <;> simp [BytesPerPixel.twice]

theorem castToInt_of_fits (p : Int) (d : BytesPerPixel) (hp : 0 < p)
    (hfit : p * d.twice / 2 ≤ INT_MAX) :
    0 < p * d.twice / 2 ∧ castToInt (wrapInt p) d = .ok (p * d.twice / 2) := by
  have hd := twice_cases d
  have hpos : 0 < p * d.twice / 2 := by
    rcases hd with h | h <;> rw [h] <;> omega
  have hple : p ≤ INT_MAX := by
    unfold INT_MAX at *
    rcases hd with h | h <;> rw [h] at hfit <;> omega
  refine ⟨hpos, ?_⟩
  rw [wrapInt_eq_self p (by unfold INT_MIN; omega) hple]
  unfold castToInt
  have ht : Int.tdiv (p * d.twice) 2 = p * d.twice / 2 := by
    apply Int.tdiv_eq_ediv
    · rcases hd with h | h <;> rw [h] <;> omega
    · omega
  simp only [ht]
  rw [if_pos]
  exact ⟨by unfold INT_MIN; omega, hfit⟩

theorem recalculate_of_fits (st : YuvSourceFilter) (hp : 0 < st.m_iWidth * st.m_iHeight)
    (hfit : specFrameSize st.m_iWidth st.m_iHeight st.m_dBytesPerPixel ≤ INT_MAX) :
    0 < specFrameSize st.m_iWidth st.m_iHeight st.m_dBytesPerPixel ∧
    recalculate st = .ok { st with
      m_iFrameSize := specFrameSize st.m_iWidth st.m_iHeight st.m_dBytesPerPixel
      m_iNoFrames := Int.tdiv st.m_iFileSize
        (specFrameSize st.m_iWidth st.m_iHeight st.m_dBytesPerPixel) } := by
  rw [specFrameSize_eq] at hfit ⊢
  obtain ⟨hpos, hcast⟩ := castToInt_of_fits _ st.m_dBytesPerPixel hp hfit
  refine ⟨hpos, ?_⟩
  unfold recalculate
  rw [hcast]
  unfold intDiv
  have h0 : st.m_iWidth * st.m_iHeight * st.m_dBytesPerPixel.twice / 2 ≠ 0 := by omega
  have h1 : st.m_iWidth * st.m_iHeight * st.m_dBytesPerPixel.twice / 2 ≠ -1 := by omega
  simp [h0, h1]

/-- C1 (amended): for strictly positive int values w and h and either bytes-per-pixel
multiplier, when floor(w*h*bytesPerPixel) does not exceed INT_MAX, recalculate on a state
with width w and height h completes and sets the frame size to floor(w*h*bytesPerPixel),
which is floor(3*w*h/2) for 1.5 and 4*w*h for 4.0. -/
theorem recalculate_frame_size (st : YuvSourceFilter) (w h : Int) (hw : 0 < w) (hh : 0 < h)
    (hwidth : st.m_iWidth = w) (hheight : st.m_iHeight = h)
    (hfit : specFrameSize w h st.m_dBytesPerPixel ≤ INT_MAX) :
    ∃ st', recalculate st = .ok st' ∧
      st'.m_iFrameSize = specFrameSize w h st.m_dBytesPerPixel ∧
      (st.m_dBytesPerPixel = .d1_5 → st'.m_iFrameSize = 3 * w * h / 2) ∧
      (st.m_dBytesPerPixel = .d4_0 → st'.m_iFrameSize = 4 * w * h) := by
  subst hwidth hheight
  obtain ⟨_, hrec⟩ := recalculate_of_fits st (mul_pos hw hh) hfit
  refine ⟨_, hrec, rfl, ?_, ?_⟩
  · intro hd
    show specFrameSize _ _ _ = _
    rw [specFrameSize_eq, hd]
    show st.m_iWidth * st.m_iHeight * 3 / 2 = 3 * st.m_iWidth * st.m_iHeight / 2
    congr 1
    ring
  · intro hd
    show specFrameSize _ _ _ = _
    rw [specFrameSize_eq, hd]
    show st.m_iWidth * st.m_iHeight * 8 / 2 = 4 * st.m_iWidth * st.m_iHeight
    rw [mul_assoc 4]
    omega

/-- Witness of C1 at the constructed filter, 352x288 with 1.5 bytes per pixel. -/
theorem recalculate_frame_size_witness :
    ∃ st', recalculate constructed = .ok st' ∧
      st'.m_iFrameSize = specFrameSize 352 288 .d1_5 ∧
      (BytesPerPixel.d1_5 = .d1_5 → st'.m_iFrameSize = 3 * 352 * 288 / 2) ∧
      (BytesPerPixel.d1_5 = .d4_0 → st'.m_iFrameSize = 4 * 352 * 288) :=
  recalculate_frame_size constructed 352 288 (by decide) (by decide) rfl rfl
    (by rw [specFrameSize_eq]; decide)

/-- Counterexample to C1 as stated: for the positive int values w = h = 40000 and 1.5
bytes per pixel, floor(w*h*1.5) = 2400000000 is no int, and recalculate does not
produce a state whose frame size has that value. -/
theorem recalculate_frame_size_counterexample :
    (0 : Int) < 40000 ∧ (40000 : Int) ≤ INT_MAX ∧
    specFrameSize 40000 40000 .d1_5 = 2400000000 ∧
    ¬ ∃ st', recalculate { constructed with m_iWidth := 40000, m_iHeight := 40000 } = .ok st' ∧
      st'.m_iFrameSize = specFrameSize 40000 40000 .d1_5 := by
  refine ⟨by decide, by decide, by rw [specFrameSize_eq]; decide, ?_⟩
  have hrun : recalculate { constructed with m_iWidth := 40000, m_iHeight := 40000 }
      = .error .castOutOfRange := by decide
  rintro ⟨st', h, _⟩
  rw [hrun] at h
  cases h

/-- C10: in a state whose stream holds no open file, readFrame reports failure and the
state, the frame buffer included, is unchanged. -/
theorem readFrame_not_open (st : YuvSourceFilter) (hclosed : st.m_in1.is_open = false) :
    readFrame st = .ok (false, st) := by
  unfold readFrame
  simp [hclosed]

/-- Witness of C10 at the constructed filter, on which Load was never called. -/
theorem readFrame_not_open_witness : readFrame constructed = .ok (false, constructed) :=
  readFrame_not_open constructed rfl

/-! ## setDimensions -/

theorem findAux_x (s : StdString) (i : Nat) :
    findAux ['x'] s i = if 'x' ∈ s then some (i + (textBeforeX s).length) else none := by
  induction s generalizing i with
  | nil => simp [findAux]
  | cons c cs ih =>
    by_cases hc : c = 'x'
    · subst hc
      simp [findAux, textBeforeX, List.isPrefixOf]
    · have hc' : ¬ 'x' = c := fun h => hc h.symm
      simp only [findAux, List.isPrefixOf, textBeforeX, List.mem_cons]
      rw [ih (i + 1)]
      simp [hc, hc', textBeforeX, List.takeWhile_cons]
      rw [Nat.add_assoc, Nat.add_comm 1]

theorem find_x (s : StdString) :
    find s ['x'] = if 'x' ∈ s then some (textBeforeX s).length else none := by
  unfold find
  rw [findAux_x]
  simp

theorem substr_textBeforeX (s : StdString) :
    substr s 0 (textBeforeX s).length = textBeforeX s := by
  unfold substr textBeforeX
  induction s with
  | nil => simp
  | cons c cs ih =>
    by_cases hc : c = 'x'
    · simp [hc]
    · simpa [List.takeWhile_cons, hc] using ih

theorem drop_textAfterX (s : StdString) :
    s.drop ((textBeforeX s).length + 1) = textAfterX s := by
  unfold textBeforeX textAfterX
  induction s with
  | nil => simp
  | cons c cs ih =>
    by_cases hc : c = 'x'
    · simp [hc]
    · simpa [List.takeWhile_cons, List.dropWhile_cons, hc] using ih

theorem setDimensions_eq (s : StdString) (st : YuvSourceFilter) :
    setDimensions s st =
      if 'x' ∈ s then
        updatePictureBuffer (extractInt (textBeforeX s)) (extractInt (textAfterX s))
          st.m_dBytesPerPixel st
      else .ok (false, st) := by
  unfold setDimensions
  rw [find_x]
  by_cases hx : 'x' ∈ s
  · simp only [hx, if_true]
    rw [substr_textBeforeX, drop_textAfterX]
  · simp [hx]

theorem updatePictureBuffer_ok {w h : Int} {d : BytesPerPixel} {st st' : YuvSourceFilter}
    {b : Bool} (hrun : updatePictureBuffer w h d st = .ok (b, st')) :
    (b = false ∧ ¬ (0 < w ∧ 0 < h) ∧ st' = st) ∨
    (b = true ∧ 0 < w ∧ 0 < h ∧ ∃ fs nf,
      castToInt (wrapInt (w * h)) st.m_dBytesPerPixel = .ok fs ∧
      intDiv st.m_iFileSize fs = .ok nf ∧ 0 ≤ fs ∧
      st' = { st with
        m_iWidth := w, m_iHeight := h, m_iFrameSize := fs, m_iNoFrames := nf
        m_pYuvBuffer := some (List.replicate fs.toNat none) }) := by
  unfold updatePictureBuffer at hrun
  by_cases hpos : 0 < w ∧ 0 < h
  · rw [if_pos hpos] at hrun
    right
    unfold recalculate at hrun
    simp only at hrun
    cases hc : castToInt (wrapInt (w * h)) st.m_dBytesPerPixel with
    | error f => rw [hc] at hrun; cases hrun
    | ok fs =>
      rw [hc] at hrun
      simp only at hrun
      cases hdiv : intDiv st.m_iFileSize fs with
      | error f => rw [hdiv] at hrun; cases hrun
      | ok nf =>
        rw [hdiv] at hrun
        simp only [newArray] at hrun
        by_cases hneg : fs < 0
        · rw [if_pos hneg] at hrun; cases hrun
        · rw [if_neg hneg] at hrun
          simp only [Except.ok.injEq, Prod.mk.injEq] at hrun
          exact ⟨hrun.1.symm, hpos.1, hpos.2, fs, nf, rfl, hdiv, by omega, hrun.2.symm⟩
  · rw [if_neg hpos] at hrun
    simp only [Except.ok.injEq, Prod.mk.injEq] at hrun
    exact Or.inl ⟨hrun.1.symm, hpos, hrun.2.symm⟩

theorem updatePictureBuffer_of_fits (w h : Int) (d : BytesPerPixel) (st : YuvSourceFilter)
    (hw : 0 < w) (hh : 0 < h) (hfit : specFrameSize w h st.m_dBytesPerPixel ≤ INT_MAX) :
    updatePictureBuffer w h d st = .ok (true, { st with
      m_iWidth := w, m_iHeight := h
      m_iFrameSize := specFrameSize w h st.m_dBytesPerPixel
      m_iNoFrames := Int.tdiv st.m_iFileSize (specFrameSize w h st.m_dBytesPerPixel)
      m_pYuvBuffer := some (List.replicate (specFrameSize w h st.m_dBytesPerPixel).toNat none) }) := by
  unfold updatePictureBuffer
  rw [if_pos ⟨hw, hh⟩]
  obtain ⟨hpos, hrec⟩ :=
    recalculate_of_fits { st with m_iWidth := w, m_iHeight := h } (mul_pos hw hh) hfit
  have hpos' : ¬ specFrameSize w h st.m_dBytesPerPixel < 0 := not_lt.mpr (le_of_lt hpos)
  rw [hrec]
  simp only [newArray]
  rw [if_neg hpos']

/-- C3: whenever setDimensions reports failure the state is the one before the call; the
strings "0x100", "100x0", "abcx100" and "100x", and every string without an 'x', are
reported as failures. -/
theorem setDimensions_failure_unchanged (st : YuvSourceFilter) :
    (∀ s st', setDimensions s st = .ok (false, st') → st' = st) ∧
    setDimensions "0x100".toList st = .ok (false, st) ∧
    setDimensions "100x0".toList st = .ok (false, st) ∧
    setDimensions "abcx100".toList st = .ok (false, st) ∧
    setDimensions "100x".toList st = .ok (false, st) ∧
    (∀ s : StdString, 'x' ∉ s → setDimensions s st = .ok (false, st)) := by
  have hfail : ∀ s : StdString, ¬ (0 < extractInt (textBeforeX s) ∧ 0 < extractInt (textAfterX s)) →
      setDimensions s st = .ok (false, st) := by
    intro s hnp
    rw [setDimensions_eq]
    split
    · unfold updatePictureBuffer
      rw [if_neg hnp]
    · rfl
  refine ⟨?_, hfail _ (by decide), hfail _ (by decide), hfail _ (by decide),
    hfail _ (by decide), ?_⟩
  · intro s st' hrun
    rw [setDimensions_eq] at hrun
    split at hrun
    · rcases updatePictureBuffer_ok hrun with ⟨_, _, h⟩ | ⟨h, _⟩
      · exact h
      · cases h
    · simp only [Except.ok.injEq, Prod.mk.injEq] at hrun
      exact hrun.2.symm
  · intro s hx
    rw [setDimensions_eq, if_neg hx]

/-- Witness of C3: the failing call setDimensions("0x100") on the constructed filter. -/
theorem setDimensions_failure_unchanged_witness :
    setDimensions "0x100".toList constructed = .ok (false, constructed) ∧
    setDimensions "352".toList constructed = .ok (false, constructed) :=
  ⟨(setDimensions_failure_unchanged constructed).2.1,
   (setDimensions_failure_unchanged constructed).2.2.2.2.2 "352".toList (by decide)⟩

/-- C2 (amended): setDimensions(s) returns success only if s contains an 'x' and the ints
parsed from the text before and after the first 'x' are both strictly positive, and it
reports failure whenever that condition fails; under the condition it returns success
when floor(w*h*bytesPerPixel) does not exceed INT_MAX. On success width and height are
the parsed values, the frame size is recomputed from them and the frame buffer is a new
one of that length. -/
theorem setDimensions_success (s : StdString) (st : YuvSourceFilter) :
    (∀ st', setDimensions s st = .ok (true, st') →
      'x' ∈ s ∧ 0 < extractInt (textBeforeX s) ∧ 0 < extractInt (textAfterX s) ∧
      st'.m_iWidth = extractInt (textBeforeX s) ∧ st'.m_iHeight = extractInt (textAfterX s) ∧
      castToInt (wrapInt (st'.m_iWidth * st'.m_iHeight)) st'.m_dBytesPerPixel
        = .ok st'.m_iFrameSize ∧
      ∃ buf, st'.m_pYuvBuffer = some buf ∧ (buf.length : Int) = st'.m_iFrameSize ∧
        buf = List.replicate buf.length none) ∧
    ('x' ∈ s → 0 < extractInt (textBeforeX s) → 0 < extractInt (textAfterX s) →
      specFrameSize (extractInt (textBeforeX s)) (extractInt (textAfterX s))
        st.m_dBytesPerPixel ≤ INT_MAX →
      ∃ st', setDimensions s st = .ok (true, st') ∧
        st'.m_iFrameSize = specFrameSize (extractInt (textBeforeX s))
          (extractInt (textAfterX s)) st.m_dBytesPerPixel) ∧
    (¬ ('x' ∈ s ∧ 0 < extractInt (textBeforeX s) ∧ 0 < extractInt (textAfterX s)) →
      setDimensions s st = .ok (false, st)) := by
  refine ⟨?_, ?_, ?_⟩
  · intro st' hrun
    rw [setDimensions_eq] at hrun
    split at hrun
    next hx =>
      rcases updatePictureBuffer_ok hrun with ⟨h, _⟩ | ⟨_, hw, hh, fs, nf, hc, _, hfs, hst⟩
      · cases h
      · subst hst
        refine ⟨hx, hw, hh, rfl, rfl, hc, _, rfl, ?_, ?_⟩
        · simp only [List.length_replicate]
          exact Int.toNat_of_nonneg hfs
        · simp only [List.length_replicate]
    next hx =>
      simp only [Except.ok.injEq, Prod.mk.injEq] at hrun
      cases hrun.1
  · intro hx hw hh hfit
    rw [setDimensions_eq, if_pos hx, updatePictureBuffer_of_fits _ _ _ _ hw hh hfit]
    exact ⟨_, rfl, rfl⟩
  · intro hnot
    rw [setDimensions_eq]
    split
    next hx =>
      unfold updatePictureBuffer
      rw [if_neg (fun h => hnot ⟨hx, h⟩)]
    next hx => rfl

/-- Witness of C2: setDimensions("176x144") on the constructed filter succeeds with a
frame of 38016 bytes. -/
theorem setDimensions_success_witness :
    ∃ st', setDimensions "176x144".toList constructed = .ok (true, st') ∧
      st'.m_iFrameSize = specFrameSize (extractInt (textBeforeX "176x144".toList))
        (extractInt (textAfterX "176x144".toList)) constructed.m_dBytesPerPixel :=
  (setDimensions_success "176x144".toList constructed).2.1 (by decide) (by decide) (by decide)
    (by rw [specFrameSize_eq]; decide)

/-- Counterexample to C2 as stated: "40000x40000" contains an 'x' and both parsed values
are strictly positive, yet setDimensions does not return success: the frame size
2400000000 is no int. -/
theorem setDimensions_success_counterexample :
    'x' ∈ "40000x40000".toList ∧
    0 < extractInt (textBeforeX "40000x40000".toList) ∧
    0 < extractInt (textAfterX "40000x40000".toList) ∧
    setDimensions "40000x40000".toList constructed = .error .castOutOfRange ∧
    ¬ ∃ st', setDimensions "40000x40000".toList constructed = .ok (true, st') := by
  have hrun : setDimensions "40000x40000".toList constructed = .error .castOutOfRange := by
    decide
  refine ⟨by decide, by decide, by decide, hrun, ?_⟩
  rintro ⟨st', h⟩
  rw [hrun] at h
  cases h

/-! ## createYuvFrameBuffer: tokens and pixel format -/

theorem findAux_isSome (needle s : StdString) (i : Nat) :
    (findAux needle s i).isSome = true ↔ needle <:+: s := by
  induction s generalizing i with
  | nil =>
    cases needle <;> simp [findAux]
  | cons c cs ih =>
    have hstep : findAux needle (c :: cs) i =
        if needle.isPrefixOf (c :: cs) then some i else findAux needle cs (i + 1) := rfl
    rw [hstep, List.infix_cons_iff, ← ih (i + 1), ← List.isPrefixOf_iff_prefix]
    by_cases hp : needle.isPrefixOf (c :: cs) = true
    · simp [hp]
    · simp [hp]

theorem find_isSome (s needle : StdString) : (find s needle).isSome = true ↔ needle <:+: s :=
  findAux_isSome needle s 0

theorem recalculate_ok {st st' : YuvSourceFilter} (hrun : recalculate st = .ok st') :
    ∃ fs nf, castToInt (wrapInt (st.m_iWidth * st.m_iHeight)) st.m_dBytesPerPixel = .ok fs ∧
      intDiv st.m_iFileSize fs = .ok nf ∧
      st' = { st with m_iFrameSize := fs, m_iNoFrames := nf } := by
  unfold recalculate at hrun
  cases hc : castToInt (wrapInt (st.m_iWidth * st.m_iHeight)) st.m_dBytesPerPixel with
  | error f => rw [hc] at hrun; cases hrun
  | ok fs =>
    rw [hc] at hrun
    simp only at hrun
    cases hdiv : intDiv st.m_iFileSize fs with
    | error f => rw [hdiv] at hrun; cases hrun
    | ok nf =>
      rw [hdiv] at hrun
      simp only [Except.ok.injEq] at hrun
      exact ⟨fs, nf, rfl, hdiv, hrun.symm⟩

theorem defaultBuffer_ok {st st' : YuvSourceFilter} (hrun : defaultBuffer st = .ok st') :
    ∃ fs nf, castToInt (wrapInt (st.m_iWidth * st.m_iHeight)) st.m_dBytesPerPixel = .ok fs ∧
      intDiv st.m_iFileSize fs = .ok nf ∧ 0 ≤ fs ∧
      st' = { st with
        m_iFrameSize := fs, m_iNoFrames := nf
        m_pYuvBuffer := some (List.replicate fs.toNat none) } := by
  unfold defaultBuffer at hrun
  cases hrec : recalculate st with
  | error f => rw [hrec] at hrun; cases hrun
  | ok st1 =>
    rw [hrec] at hrun
    obtain ⟨fs, nf, hc, hdiv, hst1⟩ := recalculate_ok hrec
    subst hst1
    simp only [newArray] at hrun
    by_cases hneg : fs < 0
    · rw [if_pos hneg] at hrun; cases hrun
    · rw [if_neg hneg] at hrun
      simp only [Except.ok.injEq] at hrun
      exact ⟨fs, nf, hc, hdiv, by omega, hrun.symm⟩

theorem setDimensions_ok {s : StdString} {st st' : YuvSourceFilter} {b : Bool}
    (hrun : setDimensions s st = .ok (b, st')) :
    (b = false ∧ st' = st) ∨
    (b = true ∧ ∃ fs nf,
      castToInt (wrapInt (extractInt (textBeforeX s) * extractInt (textAfterX s)))
        st.m_dBytesPerPixel = .ok fs ∧
      intDiv st.m_iFileSize fs = .ok nf ∧ 0 ≤ fs ∧
      st' = { st with
        m_iWidth := extractInt (textBeforeX s), m_iHeight := extractInt (textAfterX s)
        m_iFrameSize := fs, m_iNoFrames := nf
        m_pYuvBuffer := some (List.replicate fs.toNat none) }) := by
  rw [setDimensions_eq] at hrun
  split at hrun
  · rcases updatePictureBuffer_ok hrun with ⟨hb, _, h⟩ | ⟨hb, _, _, h⟩
    · exact Or.inl ⟨hb, h⟩
    · exact Or.inr ⟨hb, h⟩
  · simp only [Except.ok.injEq, Prod.mk.injEq] at hrun
    exact Or.inl ⟨hrun.1.symm, hrun.2.symm⟩

theorem specFrameSize_le_of_le (w h : Int) (d : BytesPerPixel) (hp : 0 ≤ w * h)
    (hle : w * h ≤ 268435455) : specFrameSize w h d ≤ INT_MAX := by
  rw [specFrameSize_eq]
  unfold INT_MAX
  rcases twice_cases d with h3 | h8
  · rw [h3]; omega
  · rw [h8]; omega

theorem setDimensions_literal (s : StdString) (w h : Int) (st : YuvSourceFilter)
    (hx : 'x' ∈ s) (hbefore : extractInt (textBeforeX s) = w)
    (hafter : extractInt (textAfterX s) = h) (hw : 0 < w) (hh : 0 < h)
    (hfit : specFrameSize w h st.m_dBytesPerPixel ≤ INT_MAX) :
    setDimensions s st = .ok (true, { st with
      m_iWidth := w, m_iHeight := h
      m_iFrameSize := specFrameSize w h st.m_dBytesPerPixel
      m_iNoFrames := Int.tdiv st.m_iFileSize (specFrameSize w h st.m_dBytesPerPixel)
      m_pYuvBuffer := some (List.replicate (specFrameSize w h st.m_dBytesPerPixel).toNat none) }) := by
  rw [setDimensions_eq, if_pos hx, hbefore, hafter, updatePictureBuffer_of_fits _ _ _ _ hw hh hfit]

/-- C5: in createYuvFrameBuffer, a lower-cased path that contains "qcif" gives the
dimensions 176x144, and one that contains "cif" but not "qcif" (as "sample_4cif.yuv")
gives 352x288, whatever the dimensions were before and whatever else the path holds. -/
theorem createYuvFrameBuffer_token_precedence (st : YuvSourceFilter) :
    ("qcif".toList <:+: st.m_sFile.map tolower →
      ∃ st', createYuvFrameBuffer st = .ok st' ∧ st'.m_iWidth = 176 ∧ st'.m_iHeight = 144) ∧
    (¬ "qcif".toList <:+: st.m_sFile.map tolower → "cif".toList <:+: st.m_sFile.map tolower →
      ∃ st', createYuvFrameBuffer st = .ok st' ∧ st'.m_iWidth = 352 ∧ st'.m_iHeight = 288) := by
  have hfile : (inferPixelFormat st).m_sFile = st.m_sFile := by
    unfold inferPixelFormat
    split <;> rfl
  constructor
  · intro hq
    have hfind : (find ((inferPixelFormat st).m_sFile.map tolower) "qcif".toList).isSome = true := by
      rw [hfile]; exact (find_isSome _ _).mpr hq
    unfold createYuvFrameBuffer inferDimensions
    simp only [hfind, if_true]
    rw [setDimensions_literal "176x144".toList 176 144 _ (by decide) (by decide) (by decide)
      (by decide) (by decide) (specFrameSize_le_of_le _ _ _ (by decide) (by decide))]
    exact ⟨_, rfl, rfl, rfl⟩
  · intro hnq hc
    have hfindq : ¬ (find ((inferPixelFormat st).m_sFile.map tolower) "qcif".toList).isSome = true := by
      rw [hfile]; exact fun h => hnq ((find_isSome _ _).mp h)
    have hfind : (find ((inferPixelFormat st).m_sFile.map tolower) "cif".toList).isSome = true := by
      rw [hfile]; exact (find_isSome _ _).mpr hc
    unfold createYuvFrameBuffer inferDimensions
    simp only [hfindq, hfind, if_true, if_false]
    rw [setDimensions_literal "352x288".toList 352 288 _ (by decide) (by decide) (by decide)
      (by decide) (by decide) (specFrameSize_le_of_le _ _ _ (by decide) (by decide))]
    exact ⟨_, rfl, rfl, rfl⟩

/-- Witness of C5: the paths "foo_qcif_test.yuv" and "sample_4cif.yuv", opened on a filter
whose dimensions had been 1x1. -/
theorem createYuvFrameBuffer_token_precedence_witness :
    (∃ st', createYuvFrameBuffer { constructed with
        m_sFile := "foo_qcif_test.yuv".toList, m_iWidth := 1, m_iHeight := 1 } = .ok st' ∧
      st'.m_iWidth = 176 ∧ st'.m_iHeight = 144) ∧
    (∃ st', createYuvFrameBuffer { constructed with
        m_sFile := "sample_4cif.yuv".toList, m_iWidth := 1, m_iHeight := 1 } = .ok st' ∧
      st'.m_iWidth = 352 ∧ st'.m_iHeight = 288) :=
  ⟨(createYuvFrameBuffer_token_precedence _).1 (by decide),
   (createYuvFrameBuffer_token_precedence _).2 (by decide) (by decide)⟩

theorem setDimensions_literal_ok (s : StdString) (w h : Int) {st st1 : YuvSourceFilter} {b : Bool}
    (hx : 'x' ∈ s) (hbefore : extractInt (textBeforeX s) = w)
    (hafter : extractInt (textAfterX s) = h) (hw : 0 < w) (hh : 0 < h)
    (hrun : setDimensions s st = .ok (b, st1)) :
    ∃ fs nf, castToInt (wrapInt (w * h)) st.m_dBytesPerPixel = .ok fs ∧
      intDiv st.m_iFileSize fs = .ok nf ∧ 0 ≤ fs ∧
      st1 = { st with
        m_iWidth := w, m_iHeight := h, m_iFrameSize := fs, m_iNoFrames := nf
        m_pYuvBuffer := some (List.replicate fs.toNat none) } := by
  rw [setDimensions_eq, if_pos hx, hbefore, hafter] at hrun
  rcases updatePictureBuffer_ok hrun with ⟨_, hnp, _⟩ | ⟨_, _, _, h⟩
  · exact absurd ⟨hw, hh⟩ hnp
  · exact h

theorem inferDimensions_ok {st st' : YuvSourceFilter} (hrun : inferDimensions st = .ok st') :
    ∃ w h dims fs nf,
      castToInt (wrapInt (w * h)) st.m_dBytesPerPixel = .ok fs ∧
      intDiv st.m_iFileSize fs = .ok nf ∧ 0 ≤ fs ∧
      st' = { st with
        m_iWidth := w, m_iHeight := h, m_sDimensions := dims
        m_iFrameSize := fs, m_iNoFrames := nf
        m_pYuvBuffer := some (List.replicate fs.toNat none) } := by
  unfold inferDimensions at hrun
  simp only at hrun
  by_cases hq : (find (st.m_sFile.map tolower) "qcif".toList).isSome = true
  · rw [if_pos hq] at hrun
    cases hset : setDimensions "176x144".toList st with
    | error f => rw [hset] at hrun; cases hrun
    | ok r =>
      obtain ⟨b, st1⟩ := r
      rw [hset] at hrun
      simp only [Except.ok.injEq] at hrun
      subst hrun
      obtain ⟨fs, nf, hc, hdiv, hfs, hst⟩ := setDimensions_literal_ok "176x144".toList 176 144
        (by decide) (by decide) (by decide) (by decide) (by decide) hset
      exact ⟨_, _, st.m_sDimensions, fs, nf, hc, hdiv, hfs, hst⟩
  · rw [if_neg hq] at hrun
    by_cases hcif : (find (st.m_sFile.map tolower) "cif".toList).isSome = true
    · rw [if_pos hcif] at hrun
      cases hset : setDimensions "352x288".toList st with
      | error f => rw [hset] at hrun; cases hrun
      | ok r =>
        obtain ⟨b, st1⟩ := r
        rw [hset] at hrun
        simp only [Except.ok.injEq] at hrun
        subst hrun
        obtain ⟨fs, nf, hc, hdiv, hfs, hst⟩ := setDimensions_literal_ok "352x288".toList 352 288
          (by decide) (by decide) (by decide) (by decide) (by decide) hset
        exact ⟨_, _, st.m_sDimensions, fs, nf, hc, hdiv, hfs, hst⟩
    · rw [if_neg hcif] at hrun
      cases hscan : scanX (st.m_sFile.map tolower) (st.m_sFile.map tolower) 0 with
      | error f => rw [hscan] at hrun; cases hrun
      | ok r =>
        rw [hscan] at hrun
        cases r with
        | none =>
          simp only at hrun
          obtain ⟨fs, nf, hc, hdiv, hfs, hst⟩ := defaultBuffer_ok hrun
          exact ⟨_, _, st.m_sDimensions, fs, nf, hc, hdiv, hfs, hst⟩
        | some wh =>
          obtain ⟨sWidth, sHeight⟩ := wh
          simp only at hrun
          cases hupd : updatePictureBuffer (convert sWidth) (convert sHeight)
              st.m_dBytesPerPixel st with
          | error f => rw [hupd] at hrun; cases hrun
          | ok r =>
            obtain ⟨b, st1⟩ := r
            rw [hupd] at hrun
            simp only at hrun
            obtain ⟨fs, nf, hc, hdiv, hfs, hst⟩ := defaultBuffer_ok hrun
            rcases updatePictureBuffer_ok hupd with ⟨_, _, h1⟩ | ⟨_, _, _, fs1, nf1, _, _, _, h1⟩
            · subst h1
              exact ⟨_, _, _, fs, nf, hc, hdiv, hfs, hst⟩
            · subst h1
              exact ⟨_, _, _, fs, nf, hc, hdiv, hfs, hst⟩

theorem createYuvFrameBuffer_ok {st st' : YuvSourceFilter}
    (hrun : createYuvFrameBuffer st = .ok st') :
    ∃ w h dims fs nf,
      castToInt (wrapInt (w * h)) (inferPixelFormat st).m_dBytesPerPixel = .ok fs ∧
      intDiv st.m_iFileSize fs = .ok nf ∧ 0 ≤ fs ∧
      st' = { inferPixelFormat st with
        m_iWidth := w, m_iHeight := h, m_sDimensions := dims
        m_iFrameSize := fs, m_iNoFrames := nf
        m_pYuvBuffer := some (List.replicate fs.toNat none) } := by
  obtain ⟨w, h, dims, fs, nf, hc, hdiv, hfs, hst⟩ := inferDimensions_ok hrun
  have hsize : (inferPixelFormat st).m_iFileSize = st.m_iFileSize := by
    unfold inferPixelFormat
    split <;> rfl
  rw [hsize] at hdiv
  exact ⟨w, h, dims, fs, nf, hc, hdiv, hfs, hst⟩

theorem inferPixelFormat_of_444 (st : YuvSourceFilter)
    (h : (find st.m_sFile "444".toList).isSome = true) :
    inferPixelFormat st = { st with m_dBytesPerPixel := .d4_0, m_nYuvFormat := .YUV444I } := by
  unfold inferPixelFormat
  rw [if_pos h]

theorem inferPixelFormat_of_not_444 (st : YuvSourceFilter)
    (h : ¬ (find st.m_sFile "444".toList).isSome = true) :
    inferPixelFormat st = { st with m_dBytesPerPixel := .d1_5, m_nYuvFormat := .YUV420P } := by
  unfold inferPixelFormat
  rw [if_neg h]

/-- C6: the pixel format that createYuvFrameBuffer sets is YUV444I with 4.0 bytes per pixel
exactly when the path as given contains "444", and YUV420P with 1.5 otherwise; the
dimension branch that follows leaves both values as they were set. -/
theorem createYuvFrameBuffer_pixel_format (st : YuvSourceFilter) :
    (((inferPixelFormat st).m_nYuvFormat = .YUV444I ∧
        (inferPixelFormat st).m_dBytesPerPixel = .d4_0 ∧
        (inferPixelFormat st).m_dBytesPerPixel.value = 4) ↔ "444".toList <:+: st.m_sFile) ∧
    (((inferPixelFormat st).m_nYuvFormat = .YUV420P ∧
        (inferPixelFormat st).m_dBytesPerPixel = .d1_5 ∧
        (inferPixelFormat st).m_dBytesPerPixel.value = 3 / 2) ↔ ¬ "444".toList <:+: st.m_sFile) ∧
    (∀ st', createYuvFrameBuffer st = .ok st' →
      st'.m_nYuvFormat = (inferPixelFormat st).m_nYuvFormat ∧
      st'.m_dBytesPerPixel = (inferPixelFormat st).m_dBytesPerPixel) := by
  refine ⟨?_, ?_, ?_⟩
  · rw [← find_isSome]
    by_cases hf : (find st.m_sFile "444".toList).isSome = true
    · rw [inferPixelFormat_of_444 st hf]
      exact ⟨fun _ => hf, fun _ => ⟨rfl, rfl, rfl⟩⟩
    · rw [inferPixelFormat_of_not_444 st hf]
      exact ⟨fun h => (by cases h.1), fun h => absurd h hf⟩
  · rw [← find_isSome]
    by_cases hf : (find st.m_sFile "444".toList).isSome = true
    · rw [inferPixelFormat_of_444 st hf]
      exact ⟨fun h => (by cases h.1), fun h => absurd hf h⟩
    · rw [inferPixelFormat_of_not_444 st hf]
      exact ⟨fun _ => hf, fun _ => ⟨rfl, rfl, rfl⟩⟩
  · intro st' hrun
    obtain ⟨w, h, dims, fs, nf, _, _, _, hst⟩ := createYuvFrameBuffer_ok hrun
    subst hst
    exact ⟨rfl, rfl⟩

/-- Witness of C6: "video_176x144_444.yuv" is given YUV444I with 4.0 bytes per pixel. -/
theorem createYuvFrameBuffer_pixel_format_witness :
    (inferPixelFormat { constructed with m_sFile := "video_176x144_444.yuv".toList }).m_nYuvFormat
      = .YUV444I ∧
    (inferPixelFormat { constructed with m_sFile := "video_176x144_444.yuv".toList }).m_dBytesPerPixel
      = .d4_0 ∧
    (inferPixelFormat
      { constructed with m_sFile := "video_176x144_444.yuv".toList }).m_dBytesPerPixel.value = 4 :=
  (createYuvFrameBuffer_pixel_format
    { constructed with m_sFile := "video_176x144_444.yuv".toList }).1.mpr (by decide)

/-! ## Load -/

theorem tdiv_two_neg (a : Int) (h : a < 0) : Int.tdiv a 2 = -((-a) / 2) := by
  have hneg := Int.neg_tdiv (-a) 2
  rw [neg_neg] at hneg
  rw [hneg, Int.tdiv_eq_ediv (by omega) (by omega)]

theorem castToInt_eq_spec (w h : Int) (d : BytesPerPixel) (fs : Int)
    (hcast : castToInt (wrapInt (w * h)) d = .ok fs) (hpos : 0 < fs)
    (hlo : INT_MIN ≤ specFrameSize w h d) (hhi : specFrameSize w h d ≤ INT_MAX) :
    fs = specFrameSize w h d := by
  rw [specFrameSize_eq] at hlo hhi ⊢
  generalize w * h = p at *
  unfold castToInt at hcast
  simp only at hcast
  have hmin : INT_MIN = -2147483648 := rfl
  have hmax : INT_MAX = 2147483647 := rfl
  rcases twice_cases d with ht | ht
  all_goals
    rw [ht] at hlo hhi hcast ⊢
    have hrange : INT_MIN ≤ p ∧ p ≤ INT_MAX := by omega
    rw [wrapInt_eq_self p hrange.1 hrange.2] at hcast
    split at hcast
    · simp only [Except.ok.injEq] at hcast
      by_cases hp : 0 ≤ p
      · rw [Int.tdiv_eq_ediv (by omega) (by omega)] at hcast
        exact hcast.symm
      · exfalso
        rw [tdiv_two_neg _ (by omega)] at hcast
        omega
    · cases hcast

theorem Load_ok {path : StdString} {bytes : List Nat} {st st' : YuvSourceFilter}
    (hclosed : st.m_in1.is_open = false)
    (hrun : Load path (some bytes) st = .ok (.S_OK, st')) :
    ∃ w h dims fs nf,
      castToInt (wrapInt (w * h)) st'.m_dBytesPerPixel = .ok fs ∧
      intDiv (wrapInt bytes.length) fs = .ok nf ∧ 0 ≤ fs ∧
      st'.m_iWidth = w ∧ st'.m_iHeight = h ∧ st'.m_sDimensions = dims ∧
      st'.m_iFrameSize = fs ∧ st'.m_iNoFrames = nf ∧
      st'.m_pYuvBuffer = some (List.replicate fs.toNat none) ∧
      st'.m_iFileSize = wrapInt bytes.length ∧
      st'.m_in1 = { is_open := true, failbit := false, eofbit := false, file := bytes, pos := 0 } := by
  unfold Load at hrun
  simp only [IfStream.open_, hclosed, Bool.false_eq_true, if_false, if_true, IfStream.seekg,
    IfStream.tellg, not_true_eq_false, or_self] at hrun
  split at hrun
  · cases hrun
  · next st5 hcreate =>
    simp only [Except.ok.injEq, Prod.mk.injEq, true_and] at hrun
    obtain ⟨w, h, dims, fs, nf, hc, hdiv, hfs, hst⟩ := createYuvFrameBuffer_ok hcreate
    subst hst
    subst hrun
    exact ⟨w, h, dims, fs, nf, hc, hdiv, hfs, rfl, rfl, rfl, rfl, rfl, rfl,
      by unfold inferPixelFormat; split <;> rfl,
      by unfold inferPixelFormat; split <;> rfl⟩

/-- C8 (amended): after a successful Load of a file of F bytes, F at most INT_MAX, on a
filter whose stream was not open, with S > 0 the frame size in force and
floor(width*height*bytesPerPixel) within the range of int, the frame size is
floor(width*height*bytesPerPixel) of the resulting members and the frame count is
F div S, so that frameCount*S <= F < (frameCount+1)*S. -/
theorem Load_frame_count (path : StdString) (bytes : List Nat) (st st' : YuvSourceFilter)
    (hclosed : st.m_in1.is_open = false) (hF : (bytes.length : Int) ≤ INT_MAX)
    (hrun : Load path (some bytes) st = .ok (.S_OK, st'))
    (hS : 0 < st'.m_iFrameSize)
    (hlo : INT_MIN ≤ specFrameSize st'.m_iWidth st'.m_iHeight st'.m_dBytesPerPixel)
    (hhi : specFrameSize st'.m_iWidth st'.m_iHeight st'.m_dBytesPerPixel ≤ INT_MAX) :
    st'.m_iFrameSize = specFrameSize st'.m_iWidth st'.m_iHeight st'.m_dBytesPerPixel ∧
    st'.m_iNoFrames = (bytes.length : Int) / st'.m_iFrameSize ∧
    st'.m_iNoFrames * st'.m_iFrameSize ≤ (bytes.length : Int) ∧
    (bytes.length : Int) < (st'.m_iNoFrames + 1) * st'.m_iFrameSize := by
  obtain ⟨w, h, dims, fs, nf, hc, hdiv, hfs, hw, hh, _, hfs', hnf, _, _, _⟩ := Load_ok hclosed hrun
  subst hw hh
  rw [hfs'] at hS ⊢
  rw [hnf]
  have hlen : (0 : Int) ≤ (bytes.length : Int) := Int.natCast_nonneg _
  rw [wrapInt_eq_self _ (by unfold INT_MIN; omega) hF] at hdiv
  unfold intDiv at hdiv
  rw [if_neg (by omega), if_neg (by omega)] at hdiv
  simp only [Except.ok.injEq] at hdiv
  rw [Int.tdiv_eq_ediv hlen hfs] at hdiv
  subst hdiv
  exact ⟨castToInt_eq_spec _ _ _ _ hc hS hlo hhi, rfl, Int.ediv_mul_le _ (by omega),
    Int.lt_ediv_add_one_mul_self _ hS⟩

/-- Witness of C8: the seven-byte file "a_1x2.yuv" gives frames of 3 bytes and a frame
count of 2. -/
theorem Load_frame_count_witness :
    Load "a_1x2.yuv".toList (some [1, 2, 3, 4, 5, 6, 7]) constructed = .ok (.S_OK, loadedExample) ∧
    loadedExample.m_iFrameSize = 3 ∧ loadedExample.m_iNoFrames = 2 ∧
    loadedExample.m_iFrameSize =
      specFrameSize loadedExample.m_iWidth loadedExample.m_iHeight loadedExample.m_dBytesPerPixel ∧
    loadedExample.m_iNoFrames = (([1, 2, 3, 4, 5, 6, 7] : List Nat).length : Int) /
      loadedExample.m_iFrameSize ∧
    loadedExample.m_iNoFrames * loadedExample.m_iFrameSize ≤
      (([1, 2, 3, 4, 5, 6, 7] : List Nat).length : Int) ∧
    (([1, 2, 3, 4, 5, 6, 7] : List Nat).length : Int) <
      (loadedExample.m_iNoFrames + 1) * loadedExample.m_iFrameSize :=
  ⟨by decide, by decide, by decide,
    Load_frame_count "a_1x2.yuv".toList [1, 2, 3, 4, 5, 6, 7] constructed loadedExample rfl
      (by decide) (by decide) (by decide) (by rw [specFrameSize_eq]; decide)
      (by rw [specFrameSize_eq]; decide)⟩

theorem Load_closed (path : StdString) (bytes : List Nat) (st : YuvSourceFilter)
    (hclosed : st.m_in1.is_open = false) :
    Load path (some bytes) st =
      match createYuvFrameBuffer { st with
        m_sFile := path
        m_in1 := { is_open := true, failbit := false, eofbit := false, file := bytes,
                   pos := bytes.length }
        m_iFileSize := wrapInt bytes.length } with
      | .error f => .error f
      | .ok st5 => .ok (.S_OK, { st5 with m_in1 := st5.m_in1.seekg 0 }) := by
  unfold Load
  simp only [IfStream.open_, hclosed, Bool.false_eq_true, if_false, if_true, IfStream.seekg,
    IfStream.tellg, not_true_eq_false, or_self]

/-- Counterexample to C8 as stated. Load of the empty file "a65537x65536.yuv" succeeds
with the frame size S = 98304 > 0, which is not floor(65537*65536*1.5) = 6442549248: the
product of width and height wrapped in int. A second Load on the filter that already
holds the open six-byte file returns S_OK with the frame count 0 and not 6 div 3. And
for a file "a_qcif.yuv" of 2147483648 bytes the int m_iFileSize is negative and the frame
count is -56488 and not 2147483648 div 38016 = 56488. -/
theorem Load_frame_count_counterexample :
    (Load "a65537x65536.yuv".toList (some []) constructed).map frameSummary
      = .ok (.S_OK, 65537, 65536, 98304, 0) ∧
    specFrameSize 65537 65536 .d1_5 = 6442549248 ∧
    ((Load "a_1x2.yuv".toList (some [1, 2, 3, 4, 5, 6]) constructed).bind
        (fun r => Load "b_1x2.yuv".toList (some [1, 2, 3, 4, 5, 6]) r.2)).map frameSummary
      = .ok (.S_OK, 1, 2, 3, 0) ∧
    (Load "a_qcif.yuv".toList (some (List.replicate 2147483648 0)) constructed).map frameSummary
      = .ok (.S_OK, 176, 144, 38016, -56488) ∧
    (2147483648 : Int) / 38016 = 56488 := by
  refine ⟨by decide, by rw [specFrameSize_eq]; decide, by decide, ?_, by decide⟩
  rw [Load_closed _ _ _ rfl, List.length_replicate]
  decide

/-! ## The buffer-size invariant -/

theorem inv_of_same_geometry {st st' : YuvSourceFilter}
    (hw : st'.m_iWidth = st.m_iWidth) (hh : st'.m_iHeight = st.m_iHeight)
    (hd : st'.m_dBytesPerPixel = st.m_dBytesPerPixel)
    (hfs : st'.m_iFrameSize = st.m_iFrameSize) (hbuf : st'.m_pYuvBuffer = st.m_pYuvBuffer)
    (hinv : BufferMatchesFrameSize st ∧ FrameSizeCurrent st) :
    BufferMatchesFrameSize st' ∧ FrameSizeCurrent st' := by
  unfold BufferMatchesFrameSize FrameSizeCurrent at *
  rw [hw, hh, hd, hfs, hbuf]
  exact hinv

theorem inv_of_fresh (st : YuvSourceFilter) (w h : Int) (dims : StdString) (fs nf : Int)
    (hc : castToInt (wrapInt (w * h)) st.m_dBytesPerPixel = .ok fs) (hfs : 0 ≤ fs) :
    BufferMatchesFrameSize { st with
        m_iWidth := w, m_iHeight := h, m_sDimensions := dims
        m_iFrameSize := fs, m_iNoFrames := nf
        m_pYuvBuffer := some (List.replicate fs.toNat none) } ∧
    FrameSizeCurrent { st with
        m_iWidth := w, m_iHeight := h, m_sDimensions := dims
        m_iFrameSize := fs, m_iNoFrames := nf
        m_pYuvBuffer := some (List.replicate fs.toNat none) } := by
  refine ⟨⟨_, rfl, ?_⟩, hc⟩
  simp only [List.length_replicate]
  exact Int.toNat_of_nonneg hfs

theorem Load_inv {path : StdString} {file : Option (List Nat)} {st st' : YuvSourceFilter}
    {hr : HRESULT} (hrun : Load path file st = .ok (hr, st')) :
    (hr = .S_OK → BufferMatchesFrameSize st' ∧ FrameSizeCurrent st') ∧
    (BufferMatchesFrameSize st ∧ FrameSizeCurrent st →
      BufferMatchesFrameSize st' ∧ FrameSizeCurrent st') := by
  unfold Load at hrun
  simp only at hrun
  split at hrun
  · split at hrun
    · cases hrun
    · next st5 hcreate =>
      simp only [Except.ok.injEq, Prod.mk.injEq] at hrun
      obtain ⟨w, h, dims, fs, nf, hc, _, hfs, hst⟩ := createYuvFrameBuffer_ok hcreate
      have hinv := inv_of_fresh (inferPixelFormat
        { st with
          m_sFile := path
          m_in1 := (st.m_in1.open_ file).seekg (st.m_in1.open_ file).file.length
          m_iFileSize := wrapInt ((st.m_in1.open_ file).seekg
            (st.m_in1.open_ file).file.length).tellg }) w h dims fs nf hc hfs
      rw [← hst] at hinv
      have hfinal : BufferMatchesFrameSize st' ∧ FrameSizeCurrent st' := by
        rw [← hrun.2]
        exact inv_of_same_geometry rfl rfl rfl rfl rfl hinv
      exact ⟨fun _ => hfinal, fun _ => hfinal⟩
  · simp only [Except.ok.injEq, Prod.mk.injEq] at hrun
    refine ⟨fun h => ?_, fun hinv => ?_⟩
    · rw [← hrun.1] at h
      cases h
    · rw [← hrun.2]
      exact inv_of_same_geometry rfl rfl rfl rfl rfl hinv

theorem setDimensions_inv {s : StdString} {st st' : YuvSourceFilter} {b : Bool}
    (hrun : setDimensions s st = .ok (b, st'))
    (hinv : BufferMatchesFrameSize st ∧ FrameSizeCurrent st) :
    BufferMatchesFrameSize st' ∧ FrameSizeCurrent st' := by
  rcases setDimensions_ok hrun with ⟨_, hst⟩ | ⟨_, fs, nf, hc, _, hfs, hst⟩
  · rw [hst]; exact hinv
  · rw [hst]
    exact inv_of_fresh st _ _ st.m_sDimensions fs nf hc hfs

theorem readFrame_inv {st st' : YuvSourceFilter} {b : Bool}
    (hrun : readFrame st = .ok (b, st'))
    (hinv : BufferMatchesFrameSize st ∧ FrameSizeCurrent st) :
    BufferMatchesFrameSize st' ∧ FrameSizeCurrent st' := by
  unfold readFrame at hrun
  split at hrun
  · simp only at hrun
    generalize st.m_in1.read st.m_iFrameSize = r at hrun
    split at hrun
    · cases hrun
    · next hcap =>
      simp only [Except.ok.injEq, Prod.mk.injEq] at hrun
      obtain ⟨⟨buf, hbuf, hlen⟩, hcur⟩ := hinv
      rw [hbuf] at hcap
      simp only [not_lt] at hcap
      rw [← hrun.2]
      refine ⟨⟨_, by rw [hbuf]; rfl, ?_⟩, hcur⟩
      show ((List.map some r.2 ++ List.drop r.2.length buf).length : Int) = st.m_iFrameSize
      rw [← hlen]
      simp only [List.length_append, List.length_map, List.length_drop]
      omega
  · simp only [Except.ok.injEq, Prod.mk.injEq] at hrun
    rw [← hrun.2]
    exact hinv

theorem SetParameter_inv {base : CSettingsInterface} (hbase : KeepsGeometry base)
    {type value : StdString} {st st' : YuvSourceFilter} {hr : HRESULT}
    (hrun : SetParameter base type value st = .ok (hr, st'))
    (hinv : BufferMatchesFrameSize st ∧ FrameSizeCurrent st) :
    BufferMatchesFrameSize st' ∧ FrameSizeCurrent st' := by
  unfold SetParameter at hrun
  split at hrun
  · cases hset : setDimensions value st with
    | error f => rw [hset] at hrun; cases hrun
    | ok r =>
      obtain ⟨b, st1⟩ := r
      rw [hset] at hrun
      have hinv1 := setDimensions_inv hset hinv
      cases b
      · simp only [Except.ok.injEq, Prod.mk.injEq] at hrun
        rw [← hrun.2]; exact hinv1
      · simp only [Except.ok.injEq] at hrun
        obtain ⟨h1, h2, h3, h4, h5⟩ := hbase type value st1
        rw [hrun] at h1 h2 h3 h4 h5
        exact inv_of_same_geometry h1 h2 h3 h4 h5 hinv1
  · obtain ⟨h1, h2, h3, h4, h5⟩ := hbase type value st
    split at hrun
    · simp only at hrun
      split at hrun
      · split at hrun
        · cases hrun
        · simp only [Except.ok.injEq, Prod.mk.injEq] at hrun
          rw [← hrun.2]
          exact inv_of_same_geometry h1 h2 h3 h4 h5 hinv
      · simp only [Except.ok.injEq] at hrun
        rw [hrun] at h1 h2 h3 h4 h5
        exact inv_of_same_geometry h1 h2 h3 h4 h5 hinv
    · simp only at hrun
      split at hrun
      · split at hrun
        · cases hrun
        · next st1 hrec =>
          simp only [Except.ok.injEq, Prod.mk.injEq] at hrun
          obtain ⟨fs, nf, hc, _, hst1⟩ := recalculate_ok hrec
          rw [h1, h2, h3] at hc
          have hfs : fs = st.m_iFrameSize := by
            have hcur := hinv.2
            unfold FrameSizeCurrent at hcur
            rw [hcur] at hc
            simp only [Except.ok.injEq] at hc
            exact hc.symm
          rw [← hrun.2, hst1]
          exact inv_of_same_geometry h1 h2 h3 hfs h5 hinv
      · simp only [Except.ok.injEq] at hrun
        rw [hrun] at h1 h2 h3 h4 h5
        exact inv_of_same_geometry h1 h2 h3 h4 h5 hinv

theorem run_inv {base : CSettingsInterface} (hbase : KeepsGeometry base) (op : Op)
    {st st' : YuvSourceFilter} (hrun : op.run base st = .ok st')
    (hinv : BufferMatchesFrameSize st ∧ FrameSizeCurrent st) :
    BufferMatchesFrameSize st' ∧ FrameSizeCurrent st' := by
  cases op with
  | Load name file =>
    simp only [Op.run] at hrun
    cases hl : Load name file st with
    | error f => rw [hl] at hrun; cases hrun
    | ok r =>
      obtain ⟨hr, st1⟩ := r
      rw [hl] at hrun
      simp only [Except.map, Except.ok.injEq] at hrun
      rw [← hrun]
      exact (Load_inv hl).2 hinv
  | setDimensions s =>
    simp only [Op.run] at hrun
    cases hl : setDimensions s st with
    | error f => rw [hl] at hrun; cases hrun
    | ok r =>
      obtain ⟨b, st1⟩ := r
      rw [hl] at hrun
      simp only [Except.map, Except.ok.injEq] at hrun
      rw [← hrun]
      exact setDimensions_inv hl hinv
  | SetParameter type value =>
    simp only [Op.run] at hrun
    cases hl : SetParameter base type value st with
    | error f => rw [hl] at hrun; cases hrun
    | ok r =>
      obtain ⟨hr, st1⟩ := r
      rw [hl] at hrun
      simp only [Except.map, Except.ok.injEq] at hrun
      rw [← hrun]
      exact SetParameter_inv hbase hl hinv
  | readFrame =>
    simp only [Op.run] at hrun
    cases hl : readFrame st with
    | error f => rw [hl] at hrun; cases hrun
    | ok r =>
      obtain ⟨b, st1⟩ := r
      rw [hl] at hrun
      simp only [Except.map, Except.ok.injEq] at hrun
      rw [← hrun]
      exact readFrame_inv hl hinv
  | Stop =>
    simp only [Op.run, Except.ok.injEq] at hrun
    rw [← hrun]
    exact inv_of_same_geometry rfl rfl rfl rfl rfl hinv

theorem specSettings_keepsGeometry : KeepsGeometry specSettings := by
  intro type value st
  unfold specSettings
  simp only
  split
  · exact ⟨rfl, rfl, rfl, rfl, rfl⟩
  · split <;> exact ⟨rfl, rfl, rfl, rfl, rfl⟩

theorem leftWalk_append (pre rest : StdString) :
    leftWalk (pre ++ rest) pre.length =
      if pre.all isdigit then .error .outOfBounds
      else .ok (pre.length - (pre.reverse.takeWhile isdigit).length) := by
  induction pre using List.reverseRecOn generalizing rest with
  | nil => simp [leftWalk]
  | append_singleton front a ih =>
    have hlen : (front ++ [a]).length = front.length + 1 := by simp
    have hget : (front ++ [a] ++ rest).getD front.length '\x00' = a := by
      rw [List.getD_eq_getElem?_getD, List.append_assoc,
        List.getElem?_append_right (le_refl _)]
      simp
    rw [hlen]
    show (if isdigit ((front ++ [a] ++ rest).getD front.length '\x00') = true
        then leftWalk (front ++ [a] ++ rest) front.length else .ok (front.length + 1)) = _
    rw [hget]
    by_cases ha : isdigit a = true
    · have hassoc : front ++ [a] ++ rest = front ++ (a :: rest) := by simp
      rw [if_pos ha, hassoc, ih (a :: rest)]
      simp [ha, List.takeWhile_cons]
    · rw [if_neg ha]
      simp [ha, List.takeWhile_cons]

theorem rightWalk_eq (rest : StdString) (u : Nat) :
    rightWalk rest u = u + (rest.takeWhile isdigit).length := by
  induction rest generalizing u with
  | nil => simp [rightWalk]
  | cons c cs ih =>
    by_cases hc : isdigit c = true
    · simp only [rightWalk, hc, if_true, List.takeWhile_cons, List.length_cons]
      rw [ih]
      omega
    · simp [rightWalk, hc, List.takeWhile_cons]

theorem take_takeWhile_length (l : StdString) :
    l.take (l.takeWhile isdigit).length = l.takeWhile isdigit := by
  have hsplit := List.takeWhile_append_dropWhile isdigit l
  conv_lhs => arg 2; rw [← hsplit]
  exact List.take_left' rfl

theorem substr_digitRunLeft (pre rest : StdString) :
    substr (pre ++ rest) (pre.length - (pre.reverse.takeWhile isdigit).length)
        (pre.length - (pre.length - (pre.reverse.takeWhile isdigit).length))
      = (pre.reverse.takeWhile isdigit).reverse := by
  have hsplit : pre = (pre.reverse.dropWhile isdigit).reverse ++
      (pre.reverse.takeWhile isdigit).reverse := by
    rw [← List.reverse_append, List.takeWhile_append_dropWhile, List.reverse_reverse]
  generalize (pre.reverse.dropWhile isdigit).reverse = front at hsplit
  generalize hrun : (pre.reverse.takeWhile isdigit).reverse = run at hsplit
  have hlen : (pre.reverse.takeWhile isdigit).length = run.length := by
    rw [← hrun, List.length_reverse]
  rw [hlen, hsplit]
  unfold substr
  have h1 : (front ++ run).length - run.length = front.length := by simp
  rw [h1, List.append_assoc, List.drop_left' rfl]
  have h2 : (front ++ run).length - front.length = run.length := by simp
  rw [h2]
  exact List.take_left' rfl

theorem dropWhile_append_of_all (pre l : StdString) (hall : pre.all isdigit = true) :
    (pre ++ l).dropWhile isdigit = l.dropWhile isdigit := by
  induction pre with
  | nil => rfl
  | cons a as ih =>
    simp only [List.all_cons, Bool.and_eq_true] at hall
    simp only [List.cons_append, List.dropWhile_cons, hall.1, if_true]
    exact ih hall.2

theorem not_all_of_inBounds (pre rest : StdString) (hin : ScanInBounds (pre ++ 'x' :: rest)) :
    ¬ pre.all isdigit = true := by
  intro hall
  apply hin
  rw [dropWhile_append_of_all _ _ hall]
  rfl

theorem getElem?_length_append (pre rest : StdString) (c : Char) :
    (pre ++ c :: rest)[pre.length]? = some c := by
  rw [List.getElem?_append_right (le_refl _)]
  simp

theorem digitRunLeft_append (pre rest : StdString) :
    digitRunLeft (pre ++ rest) pre.length = (pre.reverse.takeWhile isdigit).reverse := by
  unfold digitRunLeft
  rw [List.take_left' rfl]

theorem digitRunRight_append (pre rest : StdString) (c : Char) :
    digitRunRight (pre ++ c :: rest) pre.length = rest.takeWhile isdigit := by
  unfold digitRunRight
  have h : (pre ++ c :: rest) = (pre ++ [c]) ++ rest := by simp
  rw [h, List.drop_left' (by simp)]

theorem scanX_at_x (pre rest : StdString) (hnall : ¬ pre.all isdigit = true) :
    scanX (pre ++ 'x' :: rest) ('x' :: rest) pre.length =
      if pre.reverse.takeWhile isdigit ≠ [] ∧ rest.takeWhile isdigit ≠ [] then
        .ok (some ((pre.reverse.takeWhile isdigit).reverse, rest.takeWhile isdigit))
      else scanX (pre ++ 'x' :: rest) rest (pre.length + 1) := by
  have hleft := leftWalk_append pre ('x' :: rest)
  rw [if_neg hnall] at hleft
  have hsub := substr_digitRunLeft pre ('x' :: rest)
  have hle : (pre.reverse.takeWhile isdigit).length ≤ pre.length := by
    have := (List.takeWhile_sublist (l := pre.reverse) isdigit).length_le
    rwa [List.length_reverse] at this
  rw [scanX]
  simp only [if_true, hleft]
  by_cases hl : pre.reverse.takeWhile isdigit = []
  · have hb : pre.length - (pre.reverse.takeWhile isdigit).length = pre.length := by
      rw [hl]; rfl
    rw [if_neg (by rw [hb]; exact fun h => h rfl), if_neg (fun h => h.1 hl)]
  · have hl' : (pre.reverse.takeWhile isdigit).length ≠ 0 := fun h => hl (List.length_eq_zero.mp h)
    have hb : pre.length - (pre.reverse.takeWhile isdigit).length ≠ pre.length := by omega
    rw [if_pos hb, rightWalk_eq, hsub]
    by_cases hr : rest.takeWhile isdigit = []
    · rw [if_neg (by rw [hr]; exact fun h => h rfl), if_neg (fun h => h.2 hr)]
    · have hr' : (rest.takeWhile isdigit).length ≠ 0 := fun h => hr (List.length_eq_zero.mp h)
      rw [if_pos (by omega), if_pos ⟨hl, hr⟩]
      have hsubr : substr (pre ++ 'x' :: rest) (pre.length + 1)
          (pre.length + 1 + (rest.takeWhile isdigit).length - pre.length - 1)
          = rest.takeWhile isdigit := by
        unfold substr
        have h : (pre ++ 'x' :: rest) = (pre ++ ['x']) ++ rest := by simp
        rw [h, List.drop_left' (by simp)]
        have hk : pre.length + 1 + (rest.takeWhile isdigit).length - pre.length - 1
            = (rest.takeWhile isdigit).length := by omega
        rw [hk, take_takeWhile_length]
      rw [hsubr]

theorem digitsBothSides_append (pre rest : StdString) (c : Char) :
    DigitsBothSides (pre ++ c :: rest) pre.length ↔
      c = 'x' ∧ pre.reverse.takeWhile isdigit ≠ [] ∧ rest.takeWhile isdigit ≠ [] := by
  unfold DigitsBothSides
  rw [getElem?_length_append, digitRunLeft_append, digitRunRight_append]
  simp only [Option.some.injEq, ne_eq, List.reverse_eq_nil_iff]

theorem scanX_step_pos (pre rest : StdString) (c : Char)
    (hin : ScanInBounds (pre ++ c :: rest))
    (hdbs : DigitsBothSides (pre ++ c :: rest) pre.length) :
    scanX (pre ++ c :: rest) (c :: rest) pre.length =
      .ok (some (digitRunLeft (pre ++ c :: rest) pre.length,
        digitRunRight (pre ++ c :: rest) pre.length)) := by
  rw [digitRunLeft_append, digitRunRight_append]
  obtain ⟨hc, hl, hr⟩ := (digitsBothSides_append pre rest c).mp hdbs
  subst hc
  rw [scanX_at_x pre rest (not_all_of_inBounds pre rest hin), if_pos ⟨hl, hr⟩]

theorem scanX_step_neg (pre rest : StdString) (c : Char)
    (hin : ScanInBounds (pre ++ c :: rest))
    (hdbs : ¬ DigitsBothSides (pre ++ c :: rest) pre.length) :
    scanX (pre ++ c :: rest) (c :: rest) pre.length =
      scanX (pre ++ c :: rest) rest (pre.length + 1) := by
  by_cases hc : c = 'x'
  · subst hc
    rw [scanX_at_x pre rest (not_all_of_inBounds pre rest hin)]
    rw [if_neg (fun h => hdbs ((digitsBothSides_append pre rest 'x').mpr ⟨rfl, h.1, h.2⟩))]
  · rw [scanX, if_neg hc]

theorem scanX_first (s : StdString) (hin : ScanInBounds s) (rest : StdString) :
    ∀ (pre : StdString), s = pre ++ rest → ∀ p, pre.length ≤ p → DigitsBothSides s p →
      (∀ q, pre.length ≤ q → q < p → ¬ DigitsBothSides s q) →
      scanX s rest pre.length = .ok (some (digitRunLeft s p, digitRunRight s p)) := by
  induction rest with
  | nil =>
    intro pre hs p hp hdbs _
    exfalso
    rw [List.append_nil] at hs
    subst hs
    have hnone : s[p]? = none := List.getElem?_eq_none hp
    rw [hdbs.1] at hnone
    cases hnone
  | cons c rest ih =>
    intro pre hs p hp hdbs hfirst
    by_cases hhere : DigitsBothSides s pre.length
    · have hpeq : p = pre.length := by
        by_contra hne
        exact hfirst pre.length (le_refl _) (by omega) hhere
      subst hpeq
      subst hs
      exact scanX_step_pos pre rest c hin hhere
    · have hpne : p ≠ pre.length := fun h => hhere (h ▸ hdbs)
      have hstep : scanX s (c :: rest) pre.length = scanX s rest (pre.length + 1) := by
        subst hs
        exact scanX_step_neg pre rest c hin hhere
      rw [hstep]
      have hs' : s = (pre ++ [c]) ++ rest := by rw [hs]; simp
      have hlen : (pre ++ [c]).length = pre.length + 1 := by simp
      rw [← hlen]
      exact ih (pre ++ [c]) hs' p (by rw [hlen]; omega) hdbs
        (fun q hq hqp => hfirst q (by rw [hlen] at hq; omega) hqp)

theorem scanX_none (s : StdString) (hin : ScanInBounds s) (rest : StdString) :
    ∀ (pre : StdString), s = pre ++ rest →
      (∀ q, pre.length ≤ q → ¬ DigitsBothSides s q) →
      scanX s rest pre.length = .ok none := by
  induction rest with
  | nil =>
    intro pre _ _
    rfl
  | cons c rest ih =>
    intro pre hs hnone
    have hstep : scanX s (c :: rest) pre.length = scanX s rest (pre.length + 1) := by
      have hhere := hnone pre.length (le_refl _)
      subst hs
      exact scanX_step_neg pre rest c hin hhere
    rw [hstep]
    have hs' : s = (pre ++ [c]) ++ rest := by rw [hs]; simp
    have hlen : (pre ++ [c]).length = pre.length + 1 := by simp
    rw [← hlen]
    exact ih (pre ++ [c]) hs' (fun q hq => hnone q (by rw [hlen] at hq; omega))

theorem defaultBuffer_of_fits (st : YuvSourceFilter) (hp : 0 < st.m_iWidth * st.m_iHeight)
    (hfit : specFrameSize st.m_iWidth st.m_iHeight st.m_dBytesPerPixel ≤ INT_MAX) :
    defaultBuffer st = .ok { st with
      m_iFrameSize := specFrameSize st.m_iWidth st.m_iHeight st.m_dBytesPerPixel
      m_iNoFrames := Int.tdiv st.m_iFileSize
        (specFrameSize st.m_iWidth st.m_iHeight st.m_dBytesPerPixel)
      m_pYuvBuffer := some (List.replicate
        (specFrameSize st.m_iWidth st.m_iHeight st.m_dBytesPerPixel).toNat none) } := by
  obtain ⟨hpos, hrec⟩ := recalculate_of_fits st hp hfit
  have hpos' : ¬ specFrameSize st.m_iWidth st.m_iHeight st.m_dBytesPerPixel < 0 :=
    not_lt.mpr (le_of_lt hpos)
  unfold defaultBuffer
  rw [hrec]
  simp only [newArray]
  rw [if_neg hpos']

theorem convert_digits (ds : StdString) (hne : ds ≠ []) (hall : ds.all isdigit = true)
    (hfit : (decimalValue ds : Int) ≤ INT_MAX) : convert ds = (decimalValue ds : Int) := by
  unfold convert
  have hemp : ds.isEmpty = false := by
    cases ds with
    | nil => exact absurd rfl hne
    | cons a as => rfl
  rw [hemp, hall]
  simp [hfit]

theorem all_takeWhile (l : StdString) : (l.takeWhile isdigit).all isdigit = true := by
  rw [List.all_eq_true]
  intro c hc
  exact List.mem_takeWhile_imp hc

theorem digitRunLeft_all (s : StdString) (p : Nat) : (digitRunLeft s p).all isdigit = true := by
  unfold digitRunLeft
  rw [List.all_eq_true]
  intro c hc
  rw [List.mem_reverse] at hc
  exact List.mem_takeWhile_imp hc

theorem digitRunRight_all (s : StdString) (p : Nat) : (digitRunRight s p).all isdigit = true :=
  all_takeWhile _

theorem inferPixelFormat_sFile (st : YuvSourceFilter) :
    (inferPixelFormat st).m_sFile = st.m_sFile := by
  unfold inferPixelFormat
  split <;> rfl

theorem inferPixelFormat_width (st : YuvSourceFilter) :
    (inferPixelFormat st).m_iWidth = st.m_iWidth ∧
    (inferPixelFormat st).m_iHeight = st.m_iHeight := by
  unfold inferPixelFormat
  split <;> exact ⟨rfl, rfl⟩

theorem inferDimensions_no_cif (st : YuvSourceFilter)
    (hnocif : ¬ "cif".toList <:+: st.m_sFile.map tolower) :
    inferDimensions st =
      match scanX (st.m_sFile.map tolower) (st.m_sFile.map tolower) 0 with
      | .error f => .error f
      | .ok none => defaultBuffer st
      | .ok (some (sWidth, sHeight)) =>
        match updatePictureBuffer (convert sWidth) (convert sHeight) st.m_dBytesPerPixel st with
        | .error f => .error f
        | .ok (_, st1) => defaultBuffer { st1 with m_sDimensions := sWidth ++ 'x' :: sHeight } := by
  have hcq : "cif".toList <:+: "qcif".toList := by decide
  have h1 : ¬ (find (st.m_sFile.map tolower) "qcif".toList).isSome = true :=
    fun h => hnocif (hcq.trans ((find_isSome _ _).mp h))
  have h2 : ¬ (find (st.m_sFile.map tolower) "cif".toList).isSome = true :=
    fun h => hnocif ((find_isSome _ _).mp h)
  unfold inferDimensions
  simp only [h1, h2, if_false]
  rfl

theorem le_of_specFrameSize_le (w h : Int) (d : BytesPerPixel) (hw : 0 < w) (hh : 0 < h)
    (hfit : specFrameSize w h d ≤ INT_MAX) : w ≤ INT_MAX ∧ h ≤ INT_MAX := by
  rw [specFrameSize_eq] at hfit
  have hwle : w ≤ w * h := le_mul_of_one_le_right (le_of_lt hw) hh
  have hhle : h ≤ w * h := le_mul_of_one_le_left (le_of_lt hh) hw
  have hmax : INT_MAX = 2147483647 := rfl
  have hp : w * h ≤ INT_MAX := by
    rcases twice_cases d with ht | ht <;> rw [ht] at hfit <;> omega
  exact ⟨le_trans hwle hp, le_trans hhle hp⟩

/-- C7 (amended): for a path whose lower-cased form contains no "cif" and whose first
character that is not a digit is not an 'x', createYuvFrameBuffer sets width and height to
the decimal values of the maximal digit runs left and right of the first 'x' with a digit
on both sides, provided both values are positive and floor(width*height*bytesPerPixel)
does not exceed INT_MAX; and when no 'x' has a digit on both sides, a call that completes
leaves width and height as they were (and it completes when the frame size of the
previous dimensions is within 1 .. INT_MAX). -/
theorem createYuvFrameBuffer_x_pattern (st : YuvSourceFilter)
    (hnocif : ¬ "cif".toList <:+: st.m_sFile.map tolower)
    (hin : ScanInBounds (st.m_sFile.map tolower)) :
    (∀ p, DigitsBothSides (st.m_sFile.map tolower) p →
      (∀ q, q < p → ¬ DigitsBothSides (st.m_sFile.map tolower) q) →
      0 < decimalValue (digitRunLeft (st.m_sFile.map tolower) p) →
      0 < decimalValue (digitRunRight (st.m_sFile.map tolower) p) →
      specFrameSize (decimalValue (digitRunLeft (st.m_sFile.map tolower) p))
        (decimalValue (digitRunRight (st.m_sFile.map tolower) p))
        (inferPixelFormat st).m_dBytesPerPixel ≤ INT_MAX →
      ∃ st', createYuvFrameBuffer st = .ok st' ∧
        st'.m_iWidth = decimalValue (digitRunLeft (st.m_sFile.map tolower) p) ∧
        st'.m_iHeight = decimalValue (digitRunRight (st.m_sFile.map tolower) p)) ∧
    ((∀ p, ¬ DigitsBothSides (st.m_sFile.map tolower) p) →
      (∀ st', createYuvFrameBuffer st = .ok st' →
        st'.m_iWidth = st.m_iWidth ∧ st'.m_iHeight = st.m_iHeight) ∧
      (0 < st.m_iWidth * st.m_iHeight →
        specFrameSize st.m_iWidth st.m_iHeight (inferPixelFormat st).m_dBytesPerPixel ≤ INT_MAX →
        ∃ st', createYuvFrameBuffer st = .ok st' ∧
          st'.m_iWidth = st.m_iWidth ∧ st'.m_iHeight = st.m_iHeight)) := by
  have hfile := inferPixelFormat_sFile st
  have hnocif' : ¬ "cif".toList <:+: (inferPixelFormat st).m_sFile.map tolower := by
    rw [hfile]; exact hnocif
  have hcreate : createYuvFrameBuffer st = inferDimensions (inferPixelFormat st) := rfl
  rw [hcreate, inferDimensions_no_cif _ hnocif', hfile]
  constructor
  · intro p hdbs hfirst hwpos hhpos hfit
    have hscan := scanX_first _ hin (st.m_sFile.map tolower) [] rfl p (Nat.zero_le _) hdbs
      (fun q _ hq => hfirst q hq)
    have hscan' : scanX (st.m_sFile.map tolower) (st.m_sFile.map tolower) 0 =
        .ok (some (digitRunLeft (st.m_sFile.map tolower) p,
          digitRunRight (st.m_sFile.map tolower) p)) := hscan
    rw [hscan']
    simp only
    have hw : (0 : Int) < (decimalValue (digitRunLeft (st.m_sFile.map tolower) p) : Int) := by
      exact_mod_cast hwpos
    have hh : (0 : Int) < (decimalValue (digitRunRight (st.m_sFile.map tolower) p) : Int) := by
      exact_mod_cast hhpos
    obtain ⟨hwle, hhle⟩ := le_of_specFrameSize_le _ _ _ hw hh hfit
    rw [convert_digits _ hdbs.2.1 (digitRunLeft_all _ _) hwle,
      convert_digits _ hdbs.2.2 (digitRunRight_all _ _) hhle,
      updatePictureBuffer_of_fits _ _ _ _ hw hh hfit]
    simp only
    rw [defaultBuffer_of_fits _ (mul_pos hw hh) hfit]
    exact ⟨_, rfl, rfl, rfl⟩
  · intro hnone
    have hscan : scanX (st.m_sFile.map tolower) (st.m_sFile.map tolower) 0 = .ok none :=
      scanX_none _ hin (st.m_sFile.map tolower) [] rfl (fun q _ => hnone q)
    rw [hscan]
    simp only
    obtain ⟨hw0, hh0⟩ := inferPixelFormat_width st
    constructor
    · intro st' hrun
      obtain ⟨fs, nf, _, _, _, hst⟩ := defaultBuffer_ok hrun
      rw [hst]
      exact ⟨hw0, hh0⟩
    · intro hp hfit
      rw [← hw0, ← hh0] at hp hfit
      rw [defaultBuffer_of_fits _ hp hfit]
      exact ⟨_, rfl, hw0, hh0⟩

/-- Witness of C7: "video_176x144_444.yuv" has its first 'x' between digit runs at index
9 and is opened as 176x144 with YUV444I. -/
theorem createYuvFrameBuffer_x_pattern_witness :
    (∃ st', createYuvFrameBuffer { constructed with m_sFile := "video_176x144_444.yuv".toList }
        = .ok st' ∧
      st'.m_iWidth = decimalValue (digitRunLeft ("video_176x144_444.yuv".toList.map tolower) 9) ∧
      st'.m_iHeight = decimalValue (digitRunRight ("video_176x144_444.yuv".toList.map tolower) 9)) ∧
    decimalValue (digitRunLeft ("video_176x144_444.yuv".toList.map tolower) 9) = 176 ∧
    decimalValue (digitRunRight ("video_176x144_444.yuv".toList.map tolower) 9) = 144 ∧
    (createYuvFrameBuffer { constructed with m_sFile := "video_176x144_444.yuv".toList }).map
      geometrySummary = .ok (176, 144, .YUV444I, .d4_0) :=
  ⟨(createYuvFrameBuffer_x_pattern
      { constructed with m_sFile := "video_176x144_444.yuv".toList }
      (by decide) (by decide)).1 9 (by decide) (by decide) (by decide) (by decide)
      (by rw [specFrameSize_eq]; decide),
    by decide, by decide, by decide⟩

/-- Counterexample to C7 as stated: in "a4294967296x5.yuv" the first 'x' between digit
runs is at index 11, with the positive values 4294967296 and 5, and width and height
after createYuvFrameBuffer are not these values: no int holds 4294967296, the conversion
yields 0 and updatePictureBuffer leaves 352x288 in place. -/
theorem createYuvFrameBuffer_x_pattern_counterexample :
    ¬ "cif".toList <:+: "a4294967296x5.yuv".toList.map tolower ∧
    ScanInBounds ("a4294967296x5.yuv".toList.map tolower) ∧
    DigitsBothSides ("a4294967296x5.yuv".toList.map tolower) 11 ∧
    (∀ q, q < 11 → ¬ DigitsBothSides ("a4294967296x5.yuv".toList.map tolower) q) ∧
    decimalValue (digitRunLeft ("a4294967296x5.yuv".toList.map tolower) 11) = 4294967296 ∧
    decimalValue (digitRunRight ("a4294967296x5.yuv".toList.map tolower) 11) = 5 ∧
    (createYuvFrameBuffer { constructed with m_sFile := "a4294967296x5.yuv".toList }).map
      geometrySummary = .ok (352, 288, .YUV420P, .d1_5) := by
  refine ⟨by decide, by decide, by decide, by decide, by decide, by decide, by decide⟩

/-! ## readFrame -/

theorem readFrame_full_frame (st : YuvSourceFilter) (buf : ByteArray_) (n : Nat)
    (hopen : st.m_in1.is_open = true) (hfail : st.m_in1.failbit = false)
    (heof : st.m_in1.eofbit = false) (hbuf : st.m_pYuvBuffer = some buf)
    (hlen : buf.length = n) (hsize : st.m_iFrameSize = (n : Int))
    (hroom : st.m_in1.pos + n ≤ st.m_in1.file.length) :
    readFrame st = .ok (true, { st with
      m_in1 := { st.m_in1 with pos := st.m_in1.pos + n }
      m_pYuvBuffer := some (((st.m_in1.file.drop st.m_in1.pos).take n).map some) }) := by
  have hchunk : ((st.m_in1.file.drop st.m_in1.pos).take n).length = n := by
    rw [List.length_take, List.length_drop]
    omega
  unfold readFrame IfStream.read
  simp only [hopen, hfail, heof, hbuf, hsize, Int.toNat_ofNat, hchunk, hlen, if_true,
    Bool.false_eq_true, or_self, if_false, ne_eq, not_true_eq_false, lt_irrefl, Option.map_some']
  rw [List.drop_of_length_le (le_of_eq hlen), List.append_nil]

theorem readFrame_short (st : YuvSourceFilter) (buf : ByteArray_) (n : Nat)
    (hopen : st.m_in1.is_open = true) (hfail : st.m_in1.failbit = false)
    (heof : st.m_in1.eofbit = false) (hbuf : st.m_pYuvBuffer = some buf)
    (hlen : buf.length = n) (hsize : st.m_iFrameSize = (n : Int))
    (hshort : st.m_in1.file.length - st.m_in1.pos < n) :
    readFrame st = .ok (true, { st with
      m_in1 := { st.m_in1 with
        pos := st.m_in1.pos + (st.m_in1.file.drop st.m_in1.pos).length
        eofbit := true, failbit := true }
      m_pYuvBuffer := some ((st.m_in1.file.drop st.m_in1.pos).map some ++
        buf.drop (st.m_in1.file.drop st.m_in1.pos).length) }) := by
  have hrest : (st.m_in1.file.drop st.m_in1.pos).length < n := by
    rw [List.length_drop]
    exact hshort
  have htake : (st.m_in1.file.drop st.m_in1.pos).take n = st.m_in1.file.drop st.m_in1.pos :=
    List.take_of_length_le (le_of_lt hrest)
  have hne : ¬ ((st.m_in1.file.drop st.m_in1.pos).length : Int) = (n : Int) := by
    omega
  have hcap : ¬ buf.length < (st.m_in1.file.drop st.m_in1.pos).length := by
    omega
  unfold readFrame IfStream.read
  simp only [hopen, hfail, heof, hbuf, hsize, Int.toNat_ofNat, htake, if_true,
    Bool.false_eq_true, or_self, if_false, ne_eq, hne, not_false_eq_true, hcap,
    Option.map_some']

theorem readFrame_open_true {st st' : YuvSourceFilter} {b : Bool}
    (hopen : st.m_in1.is_open = true) (hrun : readFrame st = .ok (b, st')) : b = true := by
  unfold readFrame at hrun
  rw [if_pos hopen] at hrun
  simp only at hrun
  split at hrun
  · cases hrun
  · simp only [Except.ok.injEq, Prod.mk.injEq] at hrun
    exact hrun.1.symm

/-- C11 (amended): readFrame reports success whenever a file is open, also when fewer than
the frame size bytes remain after the position. On a stream without error flags the
short read shows in the stream state only: eofbit and failbit are set, the position is
the end of the file, and only the bytes that remained are written to the start of the
frame buffer. -/
theorem readFrame_short_read (st : YuvSourceFilter) (hopen : st.m_in1.is_open = true) :
    (∀ b st', readFrame st = .ok (b, st') → b = true) ∧
    (∀ (buf : ByteArray_) (n : Nat), st.m_in1.failbit = false → st.m_in1.eofbit = false →
      st.m_pYuvBuffer = some buf → buf.length = n → st.m_iFrameSize = (n : Int) →
      st.m_in1.file.length - st.m_in1.pos < n →
      ∃ st', readFrame st = .ok (true, st') ∧
        st'.m_in1.eofbit = true ∧ st'.m_in1.failbit = true ∧
        st'.m_in1.pos = st.m_in1.pos + (st.m_in1.file.length - st.m_in1.pos) ∧
        st'.m_pYuvBuffer = some ((st.m_in1.file.drop st.m_in1.pos).map some ++
          buf.drop (st.m_in1.file.length - st.m_in1.pos))) := by
  refine ⟨fun b st' hrun => readFrame_open_true hopen hrun, ?_⟩
  intro buf n hfail heof hbuf hlen hsize hshort
  rw [readFrame_short st buf n hopen hfail heof hbuf hlen hsize hshort]
  refine ⟨_, rfl, rfl, rfl, ?_, ?_⟩
  · simp only [List.length_drop]
  · simp only [List.length_drop]

/-- Witness of C11: one byte is left of the seven-byte file and the frame size is 3. -/
theorem readFrame_short_read_witness :
    ∃ st', readFrame nearEndExample = .ok (true, st') ∧
      st'.m_in1.eofbit = true ∧ st'.m_in1.failbit = true ∧
      st'.m_in1.pos = nearEndExample.m_in1.pos +
        (nearEndExample.m_in1.file.length - nearEndExample.m_in1.pos) ∧
      st'.m_pYuvBuffer = some ((nearEndExample.m_in1.file.drop nearEndExample.m_in1.pos).map some ++
        [some 4, some 5, some 6].drop
          (nearEndExample.m_in1.file.length - nearEndExample.m_in1.pos)) :=
  (readFrame_short_read nearEndExample rfl).2 [some 4, some 5, some 6] 3 rfl rfl rfl rfl rfl
    (by decide)

/-- Counterexample to C11 as stated: with one byte left of the file and a frame size of 3,
and again with no byte left, readFrame reports success. -/
theorem readFrame_short_read_counterexample :
    nearEndExample.m_in1.is_open = true ∧ nearEndExample.m_iFrameSize = 3 ∧
    nearEndExample.m_in1.file.length - nearEndExample.m_in1.pos = 1 ∧
    readFrame nearEndExample = .ok (true, pastEndExample) ∧
    pastEndExample.m_in1.file.length - pastEndExample.m_in1.pos = 0 ∧
    (readFrame pastEndExample).map Prod.fst = .ok true := by
  decide

/-! ## Sequential frame delivery -/

theorem wrapInt_le_self (z : Int) (hz : 0 ≤ z) : wrapInt z ≤ z := by
  unfold wrapInt
  omega

theorem streamConsistent_of_same {bytes : List Nat} {st st' : YuvSourceFilter}
    (hin : st'.m_in1 = st.m_in1) (hsize : st'.m_iFileSize = st.m_iFileSize)
    (hs : StreamConsistent bytes st) : StreamConsistent bytes st' := by
  unfold StreamConsistent at *
  rw [hin, hsize]
  exact hs

theorem Load_fresh_consistent {path : StdString} {bytes : List Nat} {st st' : YuvSourceFilter}
    (hclosed : st.m_in1.is_open = false)
    (hrun : Load path (some bytes) st = .ok (.S_OK, st')) : StreamConsistent bytes st' := by
  obtain ⟨w, h, dims, fs, nf, _, _, _, _, _, _, _, _, _, hsize, hstream⟩ := Load_ok hclosed hrun
  unfold StreamConsistent
  rw [hstream, hsize]
  refine ⟨rfl, rfl, fun h => (by cases h), fun h => (by cases h), ?_⟩
  exact wrapInt_le_self _ (Int.natCast_nonneg _)

theorem Load_reopen (path : StdString) (file : Option (List Nat)) (st : YuvSourceFilter)
    (hopen : st.m_in1.is_open = true) :
    Load path file st =
      match createYuvFrameBuffer { st with
        m_sFile := path
        m_in1 := { st.m_in1 with failbit := true, eofbit := false }
        m_iFileSize := wrapInt (-1) } with
      | .error f => .error f
      | .ok st5 => .ok (.S_OK, { st5 with m_in1 := st5.m_in1.seekg 0 }) := by
  unfold Load
  simp only [IfStream.open_, hopen, if_true, IfStream.seekg, IfStream.tellg, true_or]

theorem Load_consistent {path : StdString} {file : Option (List Nat)} {bytes : List Nat}
    {st st' : YuvSourceFilter} {hr : HRESULT}
    (hrun : Load path file st = .ok (hr, st')) (hs : StreamConsistent bytes st) :
    StreamConsistent bytes st' := by
  obtain ⟨hopen, hfile, _, _, hlen⟩ := hs
  rw [Load_reopen path file st hopen] at hrun
  split at hrun
  · cases hrun
  · next st5 hcreate =>
    simp only [Except.ok.injEq, Prod.mk.injEq] at hrun
    obtain ⟨w, h, dims, fs, nf, _, _, _, hst⟩ := createYuvFrameBuffer_ok hcreate
    have hin : st5.m_in1 = { st.m_in1 with failbit := true, eofbit := false } := by
      rw [hst]
      unfold inferPixelFormat
      split <;> rfl
    have hsize : st5.m_iFileSize = wrapInt (-1) := by
      rw [hst]
      unfold inferPixelFormat
      split <;> rfl
    rw [← hrun.2]
    unfold StreamConsistent
    simp only [hin, hsize, IfStream.seekg, if_true]
    refine ⟨hopen, hfile, fun h => (by cases h), fun _ => ?_, ?_⟩
    · have : wrapInt (-1) = -1 := by decide
      rw [this]
      omega
    · have : wrapInt (-1) = -1 := by decide
      rw [this]
      omega

theorem setDimensions_consistent {s : StdString} {bytes : List Nat} {st st' : YuvSourceFilter}
    {b : Bool} (hrun : setDimensions s st = .ok (b, st')) (hs : StreamConsistent bytes st) :
    StreamConsistent bytes st' := by
  rcases setDimensions_ok hrun with ⟨_, hst⟩ | ⟨_, fs, nf, _, _, _, hst⟩
  · rw [hst]; exact hs
  · rw [hst]; exact streamConsistent_of_same rfl rfl hs

theorem read_consistent (s : IfStream) (n F : Int) (bytes : List Nat) (hn : 0 ≤ n)
    (hopen : s.is_open = true) (hfile : s.file = bytes)
    (h1 : s.eofbit = true → s.failbit = true) (h2 : s.failbit = true → F ≤ (s.pos : Int))
    (h3 : F ≤ (bytes.length : Int)) :
    (s.read n).1.is_open = true ∧ (s.read n).1.file = bytes ∧
    ((s.read n).1.eofbit = true → (s.read n).1.failbit = true) ∧
    ((s.read n).1.failbit = true → F ≤ ((s.read n).1.pos : Int)) ∧
    F ≤ (bytes.length : Int) := by
  unfold IfStream.read
  by_cases hbad : s.failbit = true ∨ s.eofbit = true
  · rw [if_pos hbad]
    refine ⟨hopen, hfile, fun _ => rfl, fun _ => ?_, h3⟩
    rcases hbad with hf | he
    · exact h2 hf
    · exact h2 (h1 he)
  · rw [if_neg hbad]
    simp only
    have hfail : s.failbit = false := by
      cases hf : s.failbit
      · rfl
      · exact absurd (Or.inl hf) hbad
    have heof : s.eofbit = false := by
      cases he : s.eofbit
      · rfl
      · exact absurd (Or.inr he) hbad
    split
    · next hne =>
      refine ⟨hopen, hfile, fun _ => rfl, fun _ => ?_, h3⟩
      simp only [ne_eq] at hne
      show F ≤ ((s.pos + ((s.file.drop s.pos).take n.toNat).length : Nat) : Int)
      have hlen : ((s.file.drop s.pos).take n.toNat).length
          = min n.toNat (s.file.length - s.pos) := by
        rw [List.length_take, List.length_drop]
      rw [hlen] at hne ⊢
      rw [hfile] at hne ⊢
      omega
    · refine ⟨hopen, hfile, ?_, ?_, h3⟩
      · intro h
        rw [heof] at h
        cases h
      · intro h
        rw [hfail] at h
        cases h

theorem readFrame_consistent {bytes : List Nat} {st st' : YuvSourceFilter} {b : Bool}
    (hrun : readFrame st = .ok (b, st')) (hbuf : BufferMatchesFrameSize st)
    (hs : StreamConsistent bytes st) : StreamConsistent bytes st' := by
  obtain ⟨buf, _, hlen⟩ := hbuf
  have hn : 0 ≤ st.m_iFrameSize := by
    rw [← hlen]
    exact Int.natCast_nonneg _
  obtain ⟨hopen, hfile, h1, h2, h3⟩ := hs
  have hread := read_consistent st.m_in1 st.m_iFrameSize st.m_iFileSize bytes hn hopen hfile
    h1 h2 h3
  unfold readFrame at hrun
  rw [if_pos hopen] at hrun
  simp only at hrun
  split at hrun
  · cases hrun
  · simp only [Except.ok.injEq, Prod.mk.injEq] at hrun
    rw [← hrun.2]
    exact hread

theorem Stop_consistent {bytes : List Nat} {st : YuvSourceFilter}
    (hs : StreamConsistent bytes st) : StreamConsistent bytes (Stop st) := by
  obtain ⟨hopen, hfile, h1, h2, h3⟩ := hs
  have hstream : (Stop st).m_in1 = st.m_in1.seekg 0 := rfl
  have hsize : (Stop st).m_iFileSize = st.m_iFileSize := rfl
  unfold StreamConsistent
  rw [hstream, hsize]
  unfold IfStream.seekg
  cases hfb : st.m_in1.failbit
  · simp only [Bool.false_eq_true, if_false, hopen, if_true]
    exact ⟨trivial, hfile, fun h => (by cases h), fun h => (by cases h), h3⟩
  · simp only [if_true]
    exact ⟨hopen, hfile, fun h => (by cases h), fun _ => h2 hfb, h3⟩

theorem SetParameter_consistent {base : CSettingsInterface} (hbase : KeepsStream base)
    {type value : StdString} {bytes : List Nat} {st st' : YuvSourceFilter} {hr : HRESULT}
    (hrun : SetParameter base type value st = .ok (hr, st'))
    (hs : StreamConsistent bytes st) : StreamConsistent bytes st' := by
  unfold SetParameter at hrun
  split at hrun
  · cases hset : setDimensions value st with
    | error f => rw [hset] at hrun; cases hrun
    | ok r =>
      obtain ⟨b, st1⟩ := r
      rw [hset] at hrun
      have hs1 := setDimensions_consistent hset hs
      cases b
      · simp only [Except.ok.injEq, Prod.mk.injEq] at hrun
        rw [← hrun.2]; exact hs1
      · simp only [Except.ok.injEq] at hrun
        obtain ⟨h1, h2⟩ := hbase type value st1
        rw [hrun] at h1 h2
        exact streamConsistent_of_same h1 h2 hs1
  · obtain ⟨h1, h2⟩ := hbase type value st
    split at hrun
    · simp only at hrun
      split at hrun
      · split at hrun
        · cases hrun
        · simp only [Except.ok.injEq, Prod.mk.injEq] at hrun
          rw [← hrun.2]
          exact streamConsistent_of_same h1 h2 hs
      · simp only [Except.ok.injEq] at hrun
        rw [hrun] at h1 h2
        exact streamConsistent_of_same h1 h2 hs
    · simp only at hrun
      split at hrun
      · split at hrun
        · cases hrun
        · next st1 hrec =>
          simp only [Except.ok.injEq, Prod.mk.injEq] at hrun
          obtain ⟨fs, nf, _, _, hst1⟩ := recalculate_ok hrec
          rw [← hrun.2, hst1]
          exact streamConsistent_of_same h1 h2 hs
      · simp only [Except.ok.injEq] at hrun
        rw [hrun] at h1 h2
        exact streamConsistent_of_same h1 h2 hs

theorem run_consistent {base : CSettingsInterface} (hbase : KeepsStream base) (op : Op)
    {bytes : List Nat} {st st' : YuvSourceFilter} (hrun : op.run base st = .ok st')
    (hbuf : BufferMatchesFrameSize st) (hs : StreamConsistent bytes st) :
    StreamConsistent bytes st' := by
  cases op with
  | Load name file =>
    simp only [Op.run] at hrun
    cases hl : Load name file st with
    | error f => rw [hl] at hrun; cases hrun
    | ok r =>
      obtain ⟨hr, st1⟩ := r
      rw [hl] at hrun
      simp only [Except.map, Except.ok.injEq] at hrun
      rw [← hrun]
      exact Load_consistent hl hs
  | setDimensions s =>
    simp only [Op.run] at hrun
    cases hl : setDimensions s st with
    | error f => rw [hl] at hrun; cases hrun
    | ok r =>
      obtain ⟨b, st1⟩ := r
      rw [hl] at hrun
      simp only [Except.map, Except.ok.injEq] at hrun
      rw [← hrun]
      exact setDimensions_consistent hl hs
  | SetParameter type value =>
    simp only [Op.run] at hrun
    cases hl : SetParameter base type value st with
    | error f => rw [hl] at hrun; cases hrun
    | ok r =>
      obtain ⟨hr, st1⟩ := r
      rw [hl] at hrun
      simp only [Except.map, Except.ok.injEq] at hrun
      rw [← hrun]
      exact SetParameter_consistent hbase hl hs
  | readFrame =>
    simp only [Op.run] at hrun
    cases hl : readFrame st with
    | error f => rw [hl] at hrun; cases hrun
    | ok r =>
      obtain ⟨b, st1⟩ := r
      rw [hl] at hrun
      simp only [Except.map, Except.ok.injEq] at hrun
      rw [← hrun]
      exact readFrame_consistent hl hbuf hs
  | Stop =>
    simp only [Op.run, Except.ok.injEq] at hrun
    rw [← hrun]
    exact Stop_consistent hs

theorem runOps_consistent {base : CSettingsInterface} (hgeo : KeepsGeometry base)
    (hstream : KeepsStream base) (ops : List Op) {bytes : List Nat}
    {st st' : YuvSourceFilter} (hrun : runOps base ops st = .ok st')
    (hinv : BufferMatchesFrameSize st ∧ FrameSizeCurrent st)
    (hs : StreamConsistent bytes st) :
    BufferMatchesFrameSize st' ∧ StreamConsistent bytes st' := by
  induction ops generalizing st with
  | nil =>
    simp only [runOps, Except.ok.injEq] at hrun
    rw [← hrun]; exact ⟨hinv.1, hs⟩
  | cons op ops ih =>
    simp only [runOps] at hrun
    cases hop : op.run base st with
    | error f => rw [hop] at hrun; cases hrun
    | ok st1 =>
      rw [hop] at hrun
      exact ih hrun (run_inv hgeo op hop hinv) (run_consistent hstream op hop hinv.1 hs)

theorem specSettings_keepsStream : KeepsStream specSettings := by
  intro type value st
  unfold specSettings
  simp only
  split
  · exact ⟨rfl, rfl⟩
  · split <;> exact ⟨rfl, rfl⟩

theorem readFrame_of_consistent {bytes : List Nat} {st : YuvSourceFilter}
    (hbuf : BufferMatchesFrameSize st) (hs : StreamConsistent bytes st)
    (hS : 0 < st.m_iFrameSize)
    (hroom : (st.m_in1.pos : Int) + st.m_iFrameSize ≤ st.m_iFileSize) :
    readFrame st = .ok (true, { st with
      m_in1 := { st.m_in1 with pos := st.m_in1.pos + st.m_iFrameSize.toNat }
      m_pYuvBuffer := some (((bytes.drop st.m_in1.pos).take st.m_iFrameSize.toNat).map some) }) ∧
    ((bytes.drop st.m_in1.pos).take st.m_iFrameSize.toNat).length = st.m_iFrameSize.toNat := by
  obtain ⟨buf, hbuf, hlen⟩ := hbuf
  obtain ⟨hopen, hfile, h1, h2, h3⟩ := hs
  have hfail : st.m_in1.failbit = false := by
    cases hf : st.m_in1.failbit
    · rfl
    · have := h2 hf
      omega
  have heof : st.m_in1.eofbit = false := by
    cases he : st.m_in1.eofbit
    · rfl
    · have := h1 he
      rw [hfail] at this
      cases this
  have hn : st.m_iFrameSize = ((st.m_iFrameSize.toNat : Nat) : Int) :=
    (Int.toNat_of_nonneg (le_of_lt hS)).symm
  have hlen' : buf.length = st.m_iFrameSize.toNat := by omega
  have hroom' : st.m_in1.pos + st.m_iFrameSize.toNat ≤ st.m_in1.file.length := by
    rw [hfile]
    omega
  have hfull := readFrame_full_frame st buf st.m_iFrameSize.toNat hopen hfail heof hbuf hlen' hn
    hroom'
  rw [hfile] at hfull
  refine ⟨hfull, ?_⟩
  rw [List.length_take, List.length_drop]
  rw [hfile] at hroom'
  omega

theorem readFrames_fresh (base : CSettingsInterface) (bytes : List Nat) (n : Nat) (k : Nat) :
    ∀ (st : YuvSourceFilter) (p : Nat), BufferMatchesFrameSize st → st.m_iFrameSize = (n : Int) →
      st.m_in1 = { is_open := true, failbit := false, eofbit := false, file := bytes, pos := p } →
      p + k * n ≤ bytes.length →
      ∃ stk, runOps base (List.replicate k Op.readFrame) st = .ok stk ∧
        BufferMatchesFrameSize stk ∧ stk.m_iFrameSize = (n : Int) ∧
        stk.m_in1 = { is_open := true, failbit := false, eofbit := false, file := bytes,
                      pos := p + k * n } := by
  induction k with
  | zero =>
    intro st p hbuf hsize hstream _
    refine ⟨st, rfl, hbuf, hsize, ?_⟩
    rw [hstream]
    simp
  | succ k ih =>
    intro st p hbuf hsize hstream hroom
    obtain ⟨buf, hb, hlen⟩ := hbuf
    have hlen' : buf.length = n := by omega
    have hexp : (k + 1) * n = n + k * n := by ring
    have hroom1 : st.m_in1.pos + n ≤ st.m_in1.file.length := by
      rw [hstream]
      show p + n ≤ bytes.length
      omega
    have hread := readFrame_full_frame st buf n (by rw [hstream]) (by rw [hstream])
      (by rw [hstream]) hb hlen' hsize hroom1
    have hchunk : ((st.m_in1.file.drop st.m_in1.pos).take n).length = n := by
      rw [List.length_take, List.length_drop]
      omega
    obtain ⟨stk, hrun, hbufk, hsizek, hstreamk⟩ := ih
      { st with
        m_in1 := { st.m_in1 with pos := st.m_in1.pos + n }
        m_pYuvBuffer := some (((st.m_in1.file.drop st.m_in1.pos).take n).map some) }
      (p + n)
      ⟨_, rfl, by
        rw [List.length_map, hchunk]
        exact hsize.symm⟩
      hsize (by rw [hstream]) (by omega)
    refine ⟨stk, ?_, hbufk, hsizek, ?_⟩
    · show runOps base (Op.readFrame :: List.replicate k Op.readFrame) st = .ok stk
      rw [runOps]
      simp only [Op.run, hread, Except.map]
      exact hrun
    · rw [hstreamk, hexp, Nat.add_assoc]

theorem mul_le_of_lt_tdiv (W fs k : Int) (hfs : 0 < fs) (hk : 0 ≤ k) (hlt : k < Int.tdiv W fs) :
    (k + 1) * fs ≤ W := by
  by_cases hW : 0 ≤ W
  · rw [Int.tdiv_eq_ediv hW (le_of_lt hfs)] at hlt
    have h1 : W / fs * fs ≤ W := Int.ediv_mul_le W (ne_of_gt hfs)
    have h2 : (k + 1) * fs ≤ W / fs * fs :=
      mul_le_mul_of_nonneg_right (by omega) (le_of_lt hfs)
    exact le_trans h2 h1
  · exfalso
    have hneg := Int.neg_tdiv (-W) fs
    rw [neg_neg] at hneg
    rw [hneg, Int.tdiv_eq_ediv (by omega) (le_of_lt hfs)] at hlt
    have : 0 ≤ -W / fs := Int.ediv_nonneg (by omega) (le_of_lt hfs)
    omega

theorem Load_reopen_consistent {path : StdString} {file : Option (List Nat)}
    {st st' : YuvSourceFilter} {hr : HRESULT} (hopen : st.m_in1.is_open = true)
    (hrun : Load path file st = .ok (hr, st')) :
    StreamConsistent st'.m_in1.file st' ∧
    intDiv (-1) st'.m_iFrameSize = .ok st'.m_iNoFrames := by
  rw [Load_reopen path file st hopen] at hrun
  split at hrun
  · cases hrun
  · next st5 hcreate =>
    simp only [Except.ok.injEq, Prod.mk.injEq] at hrun
    obtain ⟨w, h, dims, fs, nf, _, hdiv, _, hst⟩ := createYuvFrameBuffer_ok hcreate
    have hin : st5.m_in1 = { st.m_in1 with failbit := true, eofbit := false } := by
      rw [hst]
      unfold inferPixelFormat
      split <;> rfl
    have hsize : st5.m_iFileSize = wrapInt (-1) := by
      rw [hst]
      unfold inferPixelFormat
      split <;> rfl
    have hfs : st5.m_iFrameSize = fs := by rw [hst]
    have hnf : st5.m_iNoFrames = nf := by rw [hst]
    have hminus : wrapInt (-1) = -1 := by decide
    rw [← hrun.2]
    constructor
    · unfold StreamConsistent
      simp only [hin, hsize, IfStream.seekg, if_true, hminus]
      refine ⟨hopen, trivial, fun h => (by cases h), fun _ => ?_, ?_⟩
      · omega
      · omega
    · show intDiv (-1) st5.m_iFrameSize = .ok st5.m_iNoFrames
      rw [hfs, hnf]
      have hd : intDiv (wrapInt (-1)) fs = .ok nf := hdiv
      rw [hminus] at hd
      exact hd

/-- C12: on a filter opened by a successful Load, in every state reached afterwards with
frame size S > 0 and position p such that p + S is at most the recorded file size,
readFrame succeeds, the frame buffer then holds exactly the file bytes [p, p+S) and the
position is p + S; and the k-th readFrame after the Load, for k below the frame count,
delivers the bytes [k*S, (k+1)*S). The file of the stream is the one named in the first
Load. The settings base class is taken not to store into the geometry, the buffer, the
stream or the file size. -/
theorem readFrame_sequential (base : CSettingsInterface) (hgeo : KeepsGeometry base)
    (hstream : KeepsStream base) (path : StdString) (file : Option (List Nat))
    (st0 st1 : YuvSourceFilter) (hopen : Load path file st0 = .ok (.S_OK, st1)) :
    (∀ ops st, runOps base ops st1 = .ok st → 0 < st.m_iFrameSize →
      (st.m_in1.pos : Int) + st.m_iFrameSize ≤ st.m_iFileSize →
      ∃ st', readFrame st = .ok (true, st') ∧
        st'.m_pYuvBuffer =
          some (((st1.m_in1.file.drop st.m_in1.pos).take st.m_iFrameSize.toNat).map some) ∧
        ((st1.m_in1.file.drop st.m_in1.pos).take st.m_iFrameSize.toNat).length
          = st.m_iFrameSize.toNat ∧
        st'.m_in1.pos = st.m_in1.pos + st.m_iFrameSize.toNat) ∧
    (∀ k : Nat, 0 < st1.m_iFrameSize → (k : Int) < st1.m_iNoFrames →
      ∃ stk st', runOps base (List.replicate k Op.readFrame) st1 = .ok stk ∧
        readFrame stk = .ok (true, st') ∧
        st'.m_pYuvBuffer =
          some (((st1.m_in1.file.drop (k * st1.m_iFrameSize.toNat)).take
            st1.m_iFrameSize.toNat).map some) ∧
        ((st1.m_in1.file.drop (k * st1.m_iFrameSize.toNat)).take
            st1.m_iFrameSize.toNat).length = st1.m_iFrameSize.toNat) ∧
    (st0.m_in1.is_open = false → file = some st1.m_in1.file) := by
  have hinv1 := (Load_inv hopen).1 rfl
  by_cases hc : st0.m_in1.is_open = true
  · obtain ⟨hs1, hdiv⟩ := Load_reopen_consistent hc hopen
    refine ⟨?_, ?_, fun h => (by rw [hc] at h; cases h)⟩
    · intro ops st hrun hS hroom
      obtain ⟨hbuf, hs⟩ := runOps_consistent hgeo hstream ops hrun hinv1 hs1
      obtain ⟨hread, hlen⟩ := readFrame_of_consistent hbuf hs hS hroom
      exact ⟨_, hread, rfl, hlen, rfl⟩
    · intro k hS hk
      exfalso
      unfold intDiv at hdiv
      rw [if_neg (by omega), if_neg (by
        intro h
        have := h.2
        omega)] at hdiv
      simp only [Except.ok.injEq] at hdiv
      rw [← hdiv] at hk
      have hmul := mul_le_of_lt_tdiv _ _ k hS (Int.natCast_nonneg _) hk
      have hpos : 0 < ((k : Int) + 1) * st1.m_iFrameSize :=
        mul_pos (by omega) hS
      omega
  · have hclosed : st0.m_in1.is_open = false := by
      cases h : st0.m_in1.is_open
      · rfl
      · exact absurd h hc
    cases file with
    | none =>
      exfalso
      unfold Load at hopen
      simp only [IfStream.open_, hclosed, Bool.false_eq_true, if_false, Except.ok.injEq,
        Prod.mk.injEq] at hopen
      cases hopen.1
    | some bytes =>
      have hs1 := Load_fresh_consistent hclosed hopen
      obtain ⟨w, h, dims, fs, nf, _, hdiv, hfs, _, _, _, hsize, hnf, _, hfsz, hstr⟩ :=
        Load_ok hclosed hopen
      have hfile : st1.m_in1.file = bytes := by rw [hstr]
      rw [hfile]
      refine ⟨?_, ?_, fun _ => rfl⟩
      · intro ops st hrun hS hroom
        obtain ⟨hbuf, hs⟩ := runOps_consistent hgeo hstream ops hrun hinv1 hs1
        obtain ⟨hread, hlen⟩ := readFrame_of_consistent hbuf hs hS hroom
        exact ⟨_, hread, rfl, hlen, rfl⟩
      · intro k hS hk
        rw [hsize] at hS
        rw [hnf] at hk
        unfold intDiv at hdiv
        rw [if_neg (by omega), if_neg (by omega)] at hdiv
        simp only [Except.ok.injEq] at hdiv
        rw [← hdiv] at hk
        have hmul := mul_le_of_lt_tdiv _ fs k hS (Int.natCast_nonneg _) hk
        have hW := wrapInt_le_self (bytes.length : Int) (Int.natCast_nonneg _)
        have hn : fs = ((fs.toNat : Nat) : Int) := (Int.toNat_of_nonneg hfs).symm
        have hroomInt : ((k : Int) + 1) * (fs.toNat : Int) ≤ (bytes.length : Int) := by
          rw [← hn]
          exact le_trans hmul hW
        have hroom : 0 + (k + 1) * fs.toNat ≤ bytes.length := by
          rw [Nat.zero_add]
          exact_mod_cast hroomInt
        have hexp : (k + 1) * fs.toNat = k * fs.toNat + fs.toNat := by ring
        obtain ⟨stk, hrun, ⟨buf, hb, hlen⟩, hsizek, hstreamk⟩ :=
          readFrames_fresh base bytes fs.toNat k st1 0 hinv1.1 (hsize.trans hn) hstr
            (by omega)
        rw [Nat.zero_add] at hstreamk
        have hlen' : buf.length = fs.toNat := by omega
        have hread := readFrame_full_frame stk buf fs.toNat (by rw [hstreamk])
          (by rw [hstreamk]) (by rw [hstreamk]) hb hlen' hsizek (by
            rw [hstreamk]
            show k * fs.toNat + fs.toNat ≤ bytes.length
            omega)
        rw [hstreamk] at hread
        rw [hsize]
        refine ⟨stk, _, hrun, hread, rfl, ?_⟩
        rw [List.length_take, List.length_drop]
        omega

/-- Witness of C12: after Load of the seven-byte file "a_1x2.yuv" the frame with index 1
consists of the bytes 4, 5, 6. -/
theorem readFrame_sequential_witness :
    (∃ stk st', runOps specSettings (List.replicate 1 Op.readFrame) loadedExample = .ok stk ∧
      readFrame stk = .ok (true, st') ∧
      st'.m_pYuvBuffer =
        some (((loadedExample.m_in1.file.drop (1 * loadedExample.m_iFrameSize.toNat)).take
          loadedExample.m_iFrameSize.toNat).map some) ∧
      ((loadedExample.m_in1.file.drop (1 * loadedExample.m_iFrameSize.toNat)).take
          loadedExample.m_iFrameSize.toNat).length = loadedExample.m_iFrameSize.toNat) ∧
    ((loadedExample.m_in1.file.drop (1 * loadedExample.m_iFrameSize.toNat)).take
        loadedExample.m_iFrameSize.toNat).map some = [some 4, some 5, some 6] :=
  ⟨(readFrame_sequential specSettings specSettings_keepsGeometry specSettings_keepsStream
      "a_1x2.yuv".toList (some [1, 2, 3, 4, 5, 6, 7]) constructed loadedExample
      (by decide)).2.1 1 (by decide) (by decide),
    by decide⟩

/-! ## Stop -/

theorem Stop_idempotent (st : YuvSourceFilter) : Stop (Stop st) = Stop st := by
  unfold Stop IfStream.seekg
  cases hf : st.m_in1.failbit <;> cases ho : st.m_in1.is_open <;> simp [hf, ho]

theorem Stop_keeps_geometry (st : YuvSourceFilter) :
    (Stop st).m_pPin.m_iCurrentFrame = 0 ∧
    (Stop st).m_iWidth = st.m_iWidth ∧ (Stop st).m_iHeight = st.m_iHeight ∧
    (Stop st).m_dBytesPerPixel = st.m_dBytesPerPixel ∧
    (Stop st).m_iFrameSize = st.m_iFrameSize ∧ (Stop st).m_iNoFrames = st.m_iNoFrames ∧
    (Stop st).m_pYuvBuffer = st.m_pYuvBuffer ∧
    (st.m_in1.is_open = true → st.m_in1.failbit = false → (Stop st).m_in1.pos = 0) := by
  refine ⟨rfl, rfl, rfl, rfl, rfl, rfl, rfl, ?_⟩
  intro ho hf
  unfold Stop IfStream.seekg
  simp [hf, ho]

/-- C13 (code defect): Stop does not bring an open file back to position 0 once a read has
come up short. After Load of the seven-byte file "a_1x2.yuv" (frames of 3 bytes) and
three readFrame calls the stream has failbit set; `seekg(0, beg)` in Stop then does
nothing, the position stays 7, and the next readFrame reads nothing. -/
theorem Stop_after_short_read :
    (runOps specSettings
        [.Load "a_1x2.yuv".toList (some [1, 2, 3, 4, 5, 6, 7]), .readFrame, .readFrame,
         .readFrame] constructed).map streamSummary = .ok (7, true, 0) ∧
    (runOps specSettings
        [.Load "a_1x2.yuv".toList (some [1, 2, 3, 4, 5, 6, 7]), .readFrame, .readFrame,
         .readFrame, .Stop] constructed).map streamSummary = .ok (7, true, 0) ∧
    (runOps specSettings
        [.Load "a_1x2.yuv".toList (some [1, 2, 3, 4, 5, 6, 7]), .readFrame, .readFrame,
         .readFrame, .Stop] constructed).map YuvSourceFilter.m_pYuvBuffer
      = .ok (some [some 7, some 5, some 6]) ∧
    (runOps specSettings
        [.Load "a_1x2.yuv".toList (some [1, 2, 3, 4, 5, 6, 7]), .readFrame, .readFrame,
         .readFrame, .Stop, .readFrame] constructed).map streamSummary = .ok (7, true, 0) ∧
    (runOps specSettings
        [.Load "a_1x2.yuv".toList (some [1, 2, 3, 4, 5, 6, 7]), .readFrame, .readFrame,
         .readFrame, .Stop, .readFrame] constructed).map YuvSourceFilter.m_pYuvBuffer
      = .ok (some [some 7, some 5, some 6]) := by
  decide

/-! ## Frame size and index range -/

/-- C17 (code defect): width and height that pass the guard of updatePictureBuffer do not
make the frame size positive. For 65536x65536 the int product wraps to 0, the frame size
is 0 and recalculate divides by it; for 65537x65535 the product wraps to -1, the frame
size is -1 and it is the size passed to `new unsigned char[]`. -/
theorem updatePictureBuffer_frame_size_not_positive :
    (0 : Int) < 65536 ∧ (65536 : Int) ≤ INT_MAX ∧
    castToInt (wrapInt (65536 * 65536)) .d1_5 = .ok 0 ∧
    castToInt (wrapInt (65536 * 65536)) .d4_0 = .ok 0 ∧
    updatePictureBuffer 65536 65536 .d1_5 constructed = .error .divisionByZero ∧
    (0 : Int) < 65535 ∧ (65537 : Int) ≤ INT_MAX ∧
    castToInt (wrapInt (65537 * 65535)) .d1_5 = .ok (-1) ∧
    updatePictureBuffer 65537 65535 .d1_5 constructed = .error .badAlloc := by
  decide

/-- C18 (code defect): the left walk reads outside the string. For "x.yuv" the 'x' is at
index 0 and the first read is at index SIZE_MAX; for "176x144.yuv" the reads are at
2, 1, 0 and then at SIZE_MAX. The test `uiBeforePos >= 0` of line 188 is always true for
a size_t and comes after the read. -/
theorem leftWalk_reads_out_of_range :
    leftWalkReads ("x.yuv".toList.map tolower) 0 = [SIZE_MAX] ∧
    "x.yuv".toList.length < SIZE_MAX ∧
    scanX ("x.yuv".toList.map tolower) ("x.yuv".toList.map tolower) 0 = .error .outOfBounds ∧
    createYuvFrameBuffer { constructed with m_sFile := "x.yuv".toList } = .error .outOfBounds ∧
    leftWalkReads ("176x144.yuv".toList.map tolower) 3 = [2, 1, 0, SIZE_MAX] ∧
    "176x144.yuv".toList.length < SIZE_MAX ∧
    createYuvFrameBuffer { constructed with m_sFile := "176x144.yuv".toList }
      = .error .outOfBounds := by
  decide

/-- C19 (code defect): after createYuvFrameBuffer the stored dimension string need not
denote width and height. On the qcif branch the string stays "352x288" while the
dimensions become 176x144; on the cif branch a previous "176x144" stays while the
dimensions become 352x288; on the x branch "0x100" is stored although the dimensions
352x288 are kept. -/
theorem dimension_string_out_of_step :
    (createYuvFrameBuffer { constructed with m_sFile := "foo_qcif_test.yuv".toList }).map
      dimensionSummary = .ok ("352x288", 176, 144) ∧
    (createYuvFrameBuffer { constructed with
        m_sFile := "sample_cif.yuv".toList, m_sDimensions := "176x144".toList
        m_iWidth := 176, m_iHeight := 144 }).map
      dimensionSummary = .ok ("176x144", 352, 288) ∧
    (createYuvFrameBuffer { constructed with m_sFile := "clip_0x100.yuv".toList }).map
      dimensionSummary = .ok ("0x100", 352, 288) ∧
    extractInt (textBeforeX "352x288".toList) = 352 ∧
    extractInt (textAfterX "352x288".toList) = 288 ∧
    extractInt (textBeforeX "0x100".toList) = 0 := by
  decide

/-! ## SetParameter for the frames per second -/

/-- C14: when the base class accepts the frames-per-second value f > 0, that is, returns
S_OK having stored f in m_iFramesPerSecond, SetParameter sets the frame length to
UNITS div f with UNITS = 10^7 and changes nothing else: width, height, bytes per pixel,
frame size, frame count and frame buffer are as before, and recalculate is not called. -/
theorem SetParameter_fps (base : CSettingsInterface) (value : StdString) (st : YuvSourceFilter)
    (f : Int) (hne : base.SOURCE_FPS ≠ base.SOURCE_DIMENSIONS)
    (haccept : base.SetParameter base.SOURCE_FPS value st
      = (.S_OK, { st with m_iFramesPerSecond := f }))
    (hf : 0 < f) :
    SetParameter base base.SOURCE_FPS value st
      = .ok (.S_OK, { st with m_iFramesPerSecond := f, m_rtFrameLength := UNITS / f }) ∧
    UNITS = 10 ^ 7 ∧
    ∀ st', SetParameter base base.SOURCE_FPS value st = .ok (.S_OK, st') →
      st'.m_iFramesPerSecond = f ∧ st'.m_rtFrameLength = UNITS / f ∧
      st'.m_iWidth = st.m_iWidth ∧ st'.m_iHeight = st.m_iHeight ∧
      st'.m_dBytesPerPixel = st.m_dBytesPerPixel ∧ st'.m_iFrameSize = st.m_iFrameSize ∧
      st'.m_iNoFrames = st.m_iNoFrames ∧ st'.m_pYuvBuffer = st.m_pYuvBuffer := by
  have hrun : SetParameter base base.SOURCE_FPS value st
      = .ok (.S_OK, { st with m_iFramesPerSecond := f, m_rtFrameLength := UNITS / f }) := by
    unfold SetParameter
    rw [if_neg hne, if_pos rfl]
    simp only [haccept, if_true]
    unfold intDiv
    have hU : ¬ (UNITS = INT_MIN ∧ f = -1) := by
      intro h
      omega
    rw [if_neg (ne_of_gt hf), if_neg hU]
    have hdiv : Int.tdiv UNITS f = UNITS / f :=
      Int.tdiv_eq_ediv (by decide) (le_of_lt hf)
    rw [hdiv]
  refine ⟨hrun, by decide, ?_⟩
  intro st' h
  rw [hrun] at h
  simp only [Except.ok.injEq, Prod.mk.injEq, true_and] at h
  rw [← h]
  exact ⟨rfl, rfl, rfl, rfl, rfl, rfl, rfl, rfl⟩

/-- Witness of C14: 25 frames per second on `loadedExample`, with the settings modelled
from the spec; the frame length becomes 400000. -/
theorem SetParameter_fps_witness :
    SetParameter specSettings specSettings.SOURCE_FPS "25".toList loadedExample
      = .ok (.S_OK, { loadedExample with
          m_iFramesPerSecond := 25, m_rtFrameLength := UNITS / 25 }) ∧
    UNITS / 25 = 400000 :=
  ⟨(SetParameter_fps specSettings "25".toList loadedExample 25 (by decide) (by decide)
      (by decide)).1, by decide⟩

/-! ## What setDimensions accepts -/

theorem isdigit_range (c : Char) (h : isdigit c = true) : 48 ≤ c.toNat ∧ c.toNat ≤ 57 := by
  unfold isdigit Char.isDigit at h
  simp only [Bool.and_eq_true, decide_eq_true_eq, ge_iff_le] at h
  obtain ⟨h1, h2⟩ := h
  exact ⟨h1, h2⟩

theorem isspace_of_isdigit (c : Char) (h : isdigit c = true) : isspace c = false := by
  obtain ⟨h1, h2⟩ := isdigit_range c h
  unfold isspace
  have hne : c ≠ ' ' := by
    intro hc
    rw [hc] at h1
    exact absurd h1 (by decide)
  simp only [hne, decide_False, Bool.false_or, Bool.and_eq_false_imp, decide_eq_true_eq,
    decide_eq_false_iff_not, not_le]
  intro _
  omega

theorem not_sign_of_isdigit (c : Char) (h : isdigit c = true) : c ≠ '-' ∧ c ≠ '+' := by
  obtain ⟨h1, _⟩ := isdigit_range c h
  constructor
  · intro hc
    rw [hc] at h1
    exact absurd h1 (by decide)
  · intro hc
    rw [hc] at h1
    exact absurd h1 (by decide)

theorem takeWhile_digits_append (t junk : StdString) (hall : t.all isdigit = true)
    (hjunk : ∀ c, junk.head? = some c → isdigit c = false) :
    (t ++ junk).takeWhile isdigit = t := by
  induction t with
  | nil =>
    cases junk with
    | nil => rfl
    | cons c cs =>
      have hc := hjunk c rfl
      simp [List.takeWhile_cons, hc]
  | cons a as ih =>
    simp only [List.all_cons, Bool.and_eq_true] at hall
    simp only [List.cons_append, List.takeWhile_cons, hall.1, if_true]
    rw [ih hall.2]

theorem dropWhile_space_append (ws rest : StdString) (hall : ws.all isspace = true) :
    (ws ++ rest).dropWhile isspace = rest.dropWhile isspace := by
  induction ws with
  | nil => rfl
  | cons a as ih =>
    simp only [List.all_cons, Bool.and_eq_true] at hall
    simp only [List.cons_append, List.dropWhile_cons, hall.1, if_true]
    exact ih hall.2

theorem extractInt_leading (ws t junk : StdString) (hws : ws.all isspace = true)
    (hne : t ≠ []) (hall : t.all isdigit = true)
    (hjunk : ∀ c, junk.head? = some c → isdigit c = false) :
    extractInt (ws ++ (t ++ junk)) = clampInt (decimalValue t) := by
  cases t with
  | nil => exact absurd rfl hne
  | cons a as =>
    have ha : isdigit a = true := by
      simp only [List.all_cons, Bool.and_eq_true] at hall
      exact hall.1
    have hsp := isspace_of_isdigit a ha
    obtain ⟨hminus, hplus⟩ := not_sign_of_isdigit a ha
    have hdrop : (ws ++ (a :: as ++ junk)).dropWhile isspace = a :: as ++ junk := by
      rw [dropWhile_space_append _ _ hws]
      simp [List.dropWhile_cons, hsp]
    have htake := takeWhile_digits_append (a :: as) junk hall hjunk
    unfold extractInt
    simp only [hdrop]
    have hhead : (a :: as ++ junk).head? = some a := rfl
    have h1 : ¬ (some a = some '-') := fun h => hminus (Option.some.inj h)
    have h2 : ¬ (some a = some '+') := fun h => hplus (Option.some.inj h)
    simp only [hhead, h1, h2, or_self, if_false, htake, List.isEmpty_cons, decide_False,
      Bool.false_eq_true]

theorem textBeforeX_append (a r : StdString) (ha : 'x' ∉ a) :
    textBeforeX (a ++ 'x' :: r) = a := by
  unfold textBeforeX
  induction a with
  | nil => simp
  | cons c cs ih =>
    have hc : c ≠ 'x' := fun h => ha (by rw [h]; exact List.mem_cons_self _ _)
    have hcs : 'x' ∉ cs := fun h => ha (List.mem_cons_of_mem _ h)
    simp only [List.cons_append, List.takeWhile_cons, bne_iff_ne, ne_eq, hc, not_false_eq_true,
      if_true]
    rw [ih hcs]

theorem textAfterX_append (a r : StdString) (ha : 'x' ∉ a) :
    textAfterX (a ++ 'x' :: r) = r := by
  unfold textAfterX
  induction a with
  | nil => simp
  | cons c cs ih =>
    have hc : c ≠ 'x' := fun h => ha (by rw [h]; exact List.mem_cons_self _ _)
    have hcs : 'x' ∉ cs := fun h => ha (List.mem_cons_of_mem _ h)
    simp only [List.cons_append, List.dropWhile_cons, bne_iff_ne, ne_eq, hc, not_false_eq_true,
      if_true]
    exact ih hcs

theorem x_not_mem_of_all {p : Char → Bool} (hp : p 'x' = false) (l : StdString)
    (hall : l.all p = true) : 'x' ∉ l := by
  intro hmem
  rw [List.all_eq_true] at hall
  have := hall 'x' hmem
  rw [hp] at this
  cases this

theorem clampInt_of_range (v : Int) (hlo : 0 ≤ v) (hhi : v ≤ INT_MAX) : clampInt v = v := by
  unfold clampInt
  have hmin : INT_MIN = -2147483648 := rfl
  rw [if_neg (not_lt.mpr hhi), if_neg (by omega)]

/-- C15 (amended): a completing setDimensions(s) reports failure, with the state unchanged,
exactly when s has no 'x' or the ints parsed from the text before and after the first 'x'
are not both strictly positive, and it accepts every other string whose frame size fits
an int. The parse of either side skips leading white space and reads the leading decimal
numeral only, so that text after the numeral is ignored: a string with white space before
and other text after two positive numerals is accepted with the values of the numerals,
and has the same effect as the two numerals joined by 'x'. -/
theorem setDimensions_leading_numerals (st : YuvSourceFilter) :
    (∀ s : StdString,
      ¬ ('x' ∈ s ∧ 0 < extractInt (textBeforeX s) ∧ 0 < extractInt (textAfterX s)) →
      setDimensions s st = .ok (false, st)) ∧
    (∀ (s : StdString) (st' : YuvSourceFilter), setDimensions s st = .ok (false, st') →
      ¬ ('x' ∈ s ∧ 0 < extractInt (textBeforeX s) ∧ 0 < extractInt (textAfterX s)) ∧
      st' = st) ∧
    (∀ s : StdString,
      'x' ∈ s → 0 < extractInt (textBeforeX s) → 0 < extractInt (textAfterX s) →
      specFrameSize (extractInt (textBeforeX s)) (extractInt (textAfterX s))
        st.m_dBytesPerPixel ≤ INT_MAX →
      ∃ st', setDimensions s st = .ok (true, st') ∧
        st'.m_iWidth = extractInt (textBeforeX s) ∧
        st'.m_iHeight = extractInt (textAfterX s)) ∧
    (∀ ws1 t1 j1 ws2 t2 j2 : StdString,
      ws1.all isspace = true → t1 ≠ [] → t1.all isdigit = true → 'x' ∉ j1 →
      (∀ c, j1.head? = some c → isdigit c = false) →
      ws2.all isspace = true → t2 ≠ [] → t2.all isdigit = true →
      (∀ c, j2.head? = some c → isdigit c = false) →
      setDimensions ((ws1 ++ (t1 ++ j1)) ++ 'x' :: (ws2 ++ (t2 ++ j2))) st
        = setDimensions (t1 ++ 'x' :: t2) st ∧
      (0 < decimalValue t1 → 0 < decimalValue t2 →
        specFrameSize (decimalValue t1) (decimalValue t2) st.m_dBytesPerPixel ≤ INT_MAX →
        ∃ st', setDimensions ((ws1 ++ (t1 ++ j1)) ++ 'x' :: (ws2 ++ (t2 ++ j2))) st
            = .ok (true, st') ∧
          st'.m_iWidth = decimalValue t1 ∧ st'.m_iHeight = decimalValue t2 ∧
          st'.m_iFrameSize
            = specFrameSize (decimalValue t1) (decimalValue t2) st.m_dBytesPerPixel)) := by
  refine ⟨?_, ?_, ?_, ?_⟩
  · intro s hnot
    rw [setDimensions_eq]
    split
    next hx =>
      unfold updatePictureBuffer
      rw [if_neg (fun h => hnot ⟨hx, h⟩)]
    next hx => rfl
  · intro s st' hrun
    rw [setDimensions_eq] at hrun
    split at hrun
    next hx =>
      rcases updatePictureBuffer_ok hrun with ⟨_, hnp, hst⟩ | ⟨hb, _⟩
      · exact ⟨fun h => hnp h.2, hst⟩
      · cases hb
    next hx =>
      simp only [Except.ok.injEq, Prod.mk.injEq, true_and] at hrun
      exact ⟨fun h => hx h.1, hrun.symm⟩
  · intro s hx hw hh hfit
    rw [setDimensions_literal s _ _ st hx rfl rfl hw hh hfit]
    exact ⟨_, rfl, rfl, rfl⟩
  · intro ws1 t1 j1 ws2 t2 j2 hws1 hne1 hall1 hj1x hj1 hws2 hne2 hall2 hj2
    have hxt1 : 'x' ∉ t1 := x_not_mem_of_all (by decide) t1 hall1
    have hxw1 : 'x' ∉ ws1 := x_not_mem_of_all (by decide) ws1 hws1
    have hxa : 'x' ∉ ws1 ++ (t1 ++ j1) := by
      simp only [List.mem_append, not_or]
      exact ⟨hxw1, hxt1, hj1x⟩
    have hnil : ∀ c, ([] : StdString).head? = some c → isdigit c = false := by
      intro c h
      cases h
    have e1 := extractInt_leading ws1 t1 j1 hws1 hne1 hall1 hj1
    have e2 := extractInt_leading ws2 t2 j2 hws2 hne2 hall2 hj2
    have e3 := extractInt_leading [] t1 [] rfl hne1 hall1 hnil
    have e4 := extractInt_leading [] t2 [] rfl hne2 hall2 hnil
    simp only [List.nil_append, List.append_nil] at e3 e4
    have hmem : 'x' ∈ (ws1 ++ (t1 ++ j1)) ++ 'x' :: (ws2 ++ (t2 ++ j2)) := by simp
    constructor
    · rw [setDimensions_eq, setDimensions_eq, if_pos hmem, if_pos (by simp),
        textBeforeX_append _ _ hxa, textAfterX_append _ _ hxa,
        textBeforeX_append _ _ hxt1, textAfterX_append _ _ hxt1, e1, e2, e3, e4]
    · intro hw hh hfit
      have hw' : (0 : Int) < (decimalValue t1 : Int) := by exact_mod_cast hw
      have hh' : (0 : Int) < (decimalValue t2 : Int) := by exact_mod_cast hh
      obtain ⟨hwle, hhle⟩ := le_of_specFrameSize_le _ _ _ hw' hh' hfit
      have hb : extractInt (textBeforeX ((ws1 ++ (t1 ++ j1)) ++ 'x' :: (ws2 ++ (t2 ++ j2))))
          = (decimalValue t1 : Int) := by
        rw [textBeforeX_append _ _ hxa, e1, clampInt_of_range _ (le_of_lt hw') hwle]
      have ha : extractInt (textAfterX ((ws1 ++ (t1 ++ j1)) ++ 'x' :: (ws2 ++ (t2 ++ j2))))
          = (decimalValue t2 : Int) := by
        rw [textAfterX_append _ _ hxa, e2, clampInt_of_range _ (le_of_lt hh') hhle]
      rw [setDimensions_literal _ _ _ st hmem hb ha hw' hh' hfit]
      exact ⟨_, rfl, rfl, rfl, rfl⟩

/-- Witness of C15: "12abx100" is accepted as 12x100, with the same effect as "12x100". -/
theorem setDimensions_leading_numerals_witness :
    (setDimensions (([] ++ ("12".toList ++ "ab".toList)) ++ 'x' :: ([] ++ ("100".toList ++ [])))
        constructed
      = setDimensions ("12".toList ++ 'x' :: "100".toList) constructed) ∧
    (∃ st', setDimensions
        (([] ++ ("12".toList ++ "ab".toList)) ++ 'x' :: ([] ++ ("100".toList ++ [])))
        constructed = .ok (true, st') ∧
      st'.m_iWidth = decimalValue "12".toList ∧ st'.m_iHeight = decimalValue "100".toList ∧
      st'.m_iFrameSize = specFrameSize (decimalValue "12".toList) (decimalValue "100".toList)
        constructed.m_dBytesPerPixel) ∧
    decimalValue "12".toList = 12 ∧ decimalValue "100".toList = 100 :=
  ⟨((setDimensions_leading_numerals constructed).2.2.2 [] "12".toList "ab".toList []
      "100".toList [] rfl (by decide) (by decide) (by decide) (by decide) rfl (by decide)
      (by decide) (by decide)).1,
    ((setDimensions_leading_numerals constructed).2.2.2 [] "12".toList "ab".toList []
      "100".toList [] rfl (by decide) (by decide) (by decide) (by decide) rfl (by decide)
      (by decide) (by decide)).2 (by decide) (by decide) (by rw [specFrameSize_eq]; decide),
    by decide, by decide⟩

/-- Counterexample to C15 as stated: the strings "12abx100", "100x200x300", "100x20.5" and
" 100x200" are accepted, as 12x100, 100x200, 100x20 and 100x200. -/
theorem setDimensions_leading_numerals_counterexample :
    (setDimensions "12abx100".toList constructed).map resultSummary = .ok (true, 12, 100) ∧
    (setDimensions "100x200x300".toList constructed).map resultSummary = .ok (true, 100, 200) ∧
    (setDimensions "100x20.5".toList constructed).map resultSummary = .ok (true, 100, 20) ∧
    (setDimensions " 100x200".toList constructed).map resultSummary = .ok (true, 100, 200) := by
  decide

/-! ## Positive dimensions -/

theorem updatePictureBuffer_positive {w h : Int} {d : BytesPerPixel} {st st' : YuvSourceFilter}
    {b : Bool} (hrun : updatePictureBuffer w h d st = .ok (b, st'))
    (hpos : 0 < st.m_iWidth ∧ 0 < st.m_iHeight) : 0 < st'.m_iWidth ∧ 0 < st'.m_iHeight := by
  rcases updatePictureBuffer_ok hrun with ⟨_, _, hst⟩ | ⟨_, hw, hh, fs, nf, _, _, _, hst⟩
  · rw [hst]; exact hpos
  · rw [hst]; exact ⟨hw, hh⟩

theorem setDimensions_positive {s : StdString} {st st' : YuvSourceFilter} {b : Bool}
    (hrun : setDimensions s st = .ok (b, st'))
    (hpos : 0 < st.m_iWidth ∧ 0 < st.m_iHeight) : 0 < st'.m_iWidth ∧ 0 < st'.m_iHeight := by
  rw [setDimensions_eq] at hrun
  split at hrun
  · exact updatePictureBuffer_positive hrun hpos
  · simp only [Except.ok.injEq, Prod.mk.injEq] at hrun
    rw [← hrun.2]; exact hpos

theorem defaultBuffer_positive {st st' : YuvSourceFilter} (hrun : defaultBuffer st = .ok st')
    (hpos : 0 < st.m_iWidth ∧ 0 < st.m_iHeight) : 0 < st'.m_iWidth ∧ 0 < st'.m_iHeight := by
  obtain ⟨fs, nf, _, _, _, hst⟩ := defaultBuffer_ok hrun
  rw [hst]; exact hpos

theorem inferDimensions_positive {st st' : YuvSourceFilter}
    (hrun : inferDimensions st = .ok st')
    (hpos : 0 < st.m_iWidth ∧ 0 < st.m_iHeight) : 0 < st'.m_iWidth ∧ 0 < st'.m_iHeight := by
  unfold inferDimensions at hrun
  simp only at hrun
  split at hrun
  · cases hset : setDimensions "176x144".toList st with
    | error f => rw [hset] at hrun; cases hrun
    | ok r =>
      obtain ⟨b, st1⟩ := r
      rw [hset] at hrun
      simp only [Except.ok.injEq] at hrun
      rw [← hrun]
      exact setDimensions_positive hset hpos
  · split at hrun
    · cases hset : setDimensions "352x288".toList st with
      | error f => rw [hset] at hrun; cases hrun
      | ok r =>
        obtain ⟨b, st1⟩ := r
        rw [hset] at hrun
        simp only [Except.ok.injEq] at hrun
        rw [← hrun]
        exact setDimensions_positive hset hpos
    · cases hscan : scanX (st.m_sFile.map tolower) (st.m_sFile.map tolower) 0 with
      | error f => rw [hscan] at hrun; cases hrun
      | ok r =>
        rw [hscan] at hrun
        cases r with
        | none =>
          simp only at hrun
          exact defaultBuffer_positive hrun hpos
        | some wh =>
          obtain ⟨sWidth, sHeight⟩ := wh
          simp only at hrun
          cases hupd : updatePictureBuffer (convert sWidth) (convert sHeight)
              st.m_dBytesPerPixel st with
          | error f => rw [hupd] at hrun; cases hrun
          | ok r =>
            obtain ⟨b, st1⟩ := r
            rw [hupd] at hrun
            simp only at hrun
            have hpos1 := updatePictureBuffer_positive hupd hpos
            exact defaultBuffer_positive hrun hpos1

theorem Load_positive {path : StdString} {file : Option (List Nat)} {st st' : YuvSourceFilter}
    {hr : HRESULT} (hrun : Load path file st = .ok (hr, st'))
    (hpos : 0 < st.m_iWidth ∧ 0 < st.m_iHeight) : 0 < st'.m_iWidth ∧ 0 < st'.m_iHeight := by
  unfold Load at hrun
  simp only at hrun
  split at hrun
  · split at hrun
    · cases hrun
    · next st5 hcreate =>
      simp only [Except.ok.injEq, Prod.mk.injEq] at hrun
      rw [← hrun.2]
      have hpos' := inferDimensions_positive hcreate (by
        obtain ⟨hw, hh⟩ := inferPixelFormat_width
          { st with
            m_sFile := path
            m_in1 := (st.m_in1.open_ file).seekg (st.m_in1.open_ file).file.length
            m_iFileSize := wrapInt ((st.m_in1.open_ file).seekg
              (st.m_in1.open_ file).file.length).tellg }
        rw [hw, hh]
        exact hpos)
      exact hpos'
  · simp only [Except.ok.injEq, Prod.mk.injEq] at hrun
    rw [← hrun.2]
    exact hpos

theorem readFrame_positive {st st' : YuvSourceFilter} {b : Bool}
    (hrun : readFrame st = .ok (b, st'))
    (hpos : 0 < st.m_iWidth ∧ 0 < st.m_iHeight) : 0 < st'.m_iWidth ∧ 0 < st'.m_iHeight := by
  unfold readFrame at hrun
  split at hrun
  · simp only at hrun
    split at hrun
    · cases hrun
    · simp only [Except.ok.injEq, Prod.mk.injEq] at hrun
      rw [← hrun.2]
      exact hpos
  · simp only [Except.ok.injEq, Prod.mk.injEq] at hrun
    rw [← hrun.2]
    exact hpos

theorem run_positive (base : CSettingsInterface) (op : Op) (hcore : op.isSetParameter = false)
    {st st' : YuvSourceFilter} (hrun : op.run base st = .ok st')
    (hpos : 0 < st.m_iWidth ∧ 0 < st.m_iHeight) : 0 < st'.m_iWidth ∧ 0 < st'.m_iHeight := by
  cases op with
  | Load name file =>
    simp only [Op.run] at hrun
    cases hl : Load name file st with
    | error f => rw [hl] at hrun; cases hrun
    | ok r =>
      obtain ⟨hr, st1⟩ := r
      rw [hl] at hrun
      simp only [Except.map, Except.ok.injEq] at hrun
      rw [← hrun]
      exact Load_positive hl hpos
  | setDimensions s =>
    simp only [Op.run] at hrun
    cases hl : setDimensions s st with
    | error f => rw [hl] at hrun; cases hrun
    | ok r =>
      obtain ⟨b, st1⟩ := r
      rw [hl] at hrun
      simp only [Except.map, Except.ok.injEq] at hrun
      rw [← hrun]
      exact setDimensions_positive hl hpos
  | SetParameter type value => cases hcore
  | readFrame =>
    simp only [Op.run] at hrun
    cases hl : readFrame st with
    | error f => rw [hl] at hrun; cases hrun
    | ok r =>
      obtain ⟨b, st1⟩ := r
      rw [hl] at hrun
      simp only [Except.map, Except.ok.injEq] at hrun
      rw [← hrun]
      exact readFrame_positive hl hpos
  | Stop =>
    simp only [Op.run, Except.ok.injEq] at hrun
    rw [← hrun]
    exact hpos

theorem runOps_positive (base : CSettingsInterface) (ops : List Op)
    (hcore : ∀ op ∈ ops, op.isSetParameter = false)
    {st st' : YuvSourceFilter} (hrun : runOps base ops st = .ok st')
    (hpos : 0 < st.m_iWidth ∧ 0 < st.m_iHeight) : 0 < st'.m_iWidth ∧ 0 < st'.m_iHeight := by
  induction ops generalizing st with
  | nil =>
    simp only [runOps, Except.ok.injEq] at hrun
    rw [← hrun]; exact hpos
  | cons op ops ih =>
    simp only [runOps] at hrun
    cases hop : op.run base st with
    | error f => rw [hop] at hrun; cases hrun
    | ok st1 =>
      rw [hop] at hrun
      exact ih (fun o ho => hcore o (List.mem_cons_of_mem _ ho)) hrun
        (run_positive base op (hcore op (List.mem_cons_self _ _)) hop hpos)

/-- C16: starting from the constructed filter (352x288, whatever the uninitialised members
hold), in every state reached by a sequence of Load, setDimensions, readFrame and Stop
calls that all complete, width and height are strictly positive, whether or not a frame
buffer exists. -/
theorem positive_dimensions_invariant (base : CSettingsInterface)
    (m_iFrameSize : Int) (m_nYuvFormat : YuvFormat) (m_iCurrentFrame : Int)
    (ops : List Op) (hcore : ∀ op ∈ ops, op.isSetParameter = false)
    (st : YuvSourceFilter)
    (hrun : runOps base ops (YuvSourceFilter.new m_iFrameSize m_nYuvFormat m_iCurrentFrame)
      = .ok st) :
    (st.m_pYuvBuffer ≠ none → 0 < st.m_iWidth ∧ 0 < st.m_iHeight) ∧
    0 < st.m_iWidth ∧ 0 < st.m_iHeight := by
  have hstart : (0 : Int) < 352 ∧ (0 : Int) < 288 := ⟨by decide, by decide⟩
  have hpos := runOps_positive base ops hcore hrun hstart
  exact ⟨fun _ => hpos, hpos⟩

/-- Witness of C16: setDimensions("1x2") followed by Load of "clip_0x100.yuv", whose zero
width is rejected. -/
theorem positive_dimensions_invariant_witness :
    (clipExample.m_pYuvBuffer ≠ none → 0 < clipExample.m_iWidth ∧ 0 < clipExample.m_iHeight) ∧
    0 < clipExample.m_iWidth ∧ 0 < clipExample.m_iHeight :=
  positive_dimensions_invariant specSettings 0 .YUV420P 0
    [.setDimensions "1x2".toList, .Load "clip_0x100.yuv".toList (some [])]
    (by decide) clipExample (by decide)

/-! ## recalculate without a guard -/

/-- C9 (amended): recalculate has no guard for a frame size of 0 and never puts 0 in the
place of the quotient. Whenever it completes, the frame size it computed is not 0 and the
frame count is the truncated quotient of the file size by the frame size, the other members
being as before; it completes exactly when the computed frame size is an int other than 0
and the division is not INT_MIN / -1. It is total on the states that the guard of
updatePictureBuffer admits without int overflow: for strictly positive width and height
with floor(width*height*bytesPerPixel) at most INT_MAX the frame size is that floor, at
least 1, and recalculate completes. -/
theorem recalculate_defined (st : YuvSourceFilter) :
    (∀ st', recalculate st = .ok st' →
      st'.m_iFrameSize ≠ 0 ∧
      castToInt (wrapInt (st.m_iWidth * st.m_iHeight)) st.m_dBytesPerPixel
        = .ok st'.m_iFrameSize ∧
      st'.m_iNoFrames = Int.tdiv st.m_iFileSize st'.m_iFrameSize ∧
      st' = { st with m_iFrameSize := st'.m_iFrameSize, m_iNoFrames := st'.m_iNoFrames }) ∧
    ((∃ st', recalculate st = .ok st') ↔
      ∃ fs, castToInt (wrapInt (st.m_iWidth * st.m_iHeight)) st.m_dBytesPerPixel = .ok fs ∧
        fs ≠ 0 ∧ ¬ (st.m_iFileSize = INT_MIN ∧ fs = -1)) ∧
    (0 < st.m_iWidth → 0 < st.m_iHeight →
      specFrameSize st.m_iWidth st.m_iHeight st.m_dBytesPerPixel ≤ INT_MAX →
      ∃ st', recalculate st = .ok st' ∧
        st'.m_iFrameSize = specFrameSize st.m_iWidth st.m_iHeight st.m_dBytesPerPixel ∧
        1 ≤ st'.m_iFrameSize ∧
        st'.m_iNoFrames = Int.tdiv st.m_iFileSize st'.m_iFrameSize ∧
        (0 ≤ st.m_iFileSize → st'.m_iNoFrames = st.m_iFileSize / st'.m_iFrameSize)) := by
  refine ⟨?_, ⟨?_, ?_⟩, ?_⟩
  · intro st' hrun
    obtain ⟨fs, nf, hcast, hdiv, hst⟩ := recalculate_ok hrun
    subst hst
    unfold intDiv at hdiv
    by_cases h0 : fs = 0
    · rw [if_pos h0] at hdiv
      cases hdiv
    · rw [if_neg h0] at hdiv
      split at hdiv
      · cases hdiv
      · simp only [Except.ok.injEq] at hdiv
        exact ⟨h0, hcast, hdiv.symm, rfl⟩
  · rintro ⟨st', hrun⟩
    obtain ⟨fs, nf, hcast, hdiv, _⟩ := recalculate_ok hrun
    refine ⟨fs, hcast, ?_⟩
    unfold intDiv at hdiv
    by_cases h0 : fs = 0
    · rw [if_pos h0] at hdiv
      cases hdiv
    · rw [if_neg h0] at hdiv
      by_cases h1 : st.m_iFileSize = INT_MIN ∧ fs = -1
      · rw [if_pos h1] at hdiv
        cases hdiv
      · exact ⟨h0, h1⟩
  · rintro ⟨fs, hcast, h0, h1⟩
    unfold recalculate
    rw [hcast]
    simp only
    unfold intDiv
    rw [if_neg h0, if_neg h1]
    exact ⟨_, rfl⟩
  · intro hw hh hfit
    obtain ⟨hpos, hrec⟩ := recalculate_of_fits st (mul_pos hw hh) hfit
    refine ⟨_, hrec, rfl, hpos, rfl, ?_⟩
    intro hF
    exact Int.tdiv_eq_ediv hF (le_of_lt hpos)

/-- Witness of C9 at the constructed filter, 352x288 with an empty file. -/
theorem recalculate_defined_witness :
    ∃ st', recalculate constructed = .ok st' ∧
      st'.m_iFrameSize =
        specFrameSize constructed.m_iWidth constructed.m_iHeight constructed.m_dBytesPerPixel ∧
      1 ≤ st'.m_iFrameSize ∧
      st'.m_iNoFrames = Int.tdiv constructed.m_iFileSize st'.m_iFrameSize ∧
      (0 ≤ constructed.m_iFileSize →
        st'.m_iNoFrames = constructed.m_iFileSize / st'.m_iFrameSize) :=
  (recalculate_defined constructed).2.2 (by decide) (by decide)
    (by rw [specFrameSize_eq]; decide)

/-- Counterexample to C9 as stated: on a state with width 0 the computed frame size is 0
and recalculate divides by zero instead of setting the frame count to 0; the same
happens with width and height 65536, whose int product wraps to 0 and which
setDimensions("65536x65536") passes to recalculate. -/
theorem recalculate_defined_counterexample :
    castToInt (wrapInt (0 * 288)) .d1_5 = .ok 0 ∧
    recalculate { constructed with m_iWidth := 0 } = .error .divisionByZero ∧
    castToInt (wrapInt (65536 * 65536)) .d1_5 = .ok 0 ∧
    recalculate { constructed with m_iWidth := 65536, m_iHeight := 65536 }
      = .error .divisionByZero ∧
    setDimensions "65536x65536".toList constructed = .error .divisionByZero := by
  decide


end YuvSource
